import Mathlib

/-!
Verification development for the `rust-lightning` fork: a shallow embedding of
`ln/onchain_utils.rs` and `routing/router.rs` into Lean 4, together with
theorems about the embedded operations.

Modelling conventions, used consistently below:
* Machine integers (`u8`/`u16`/`u32`/`u64`) are modelled as `Nat`.  Rust
  declares arithmetic overflow a program error (it aborts under the default
  debug profile); we therefore compute `+` and `*` exactly in `Nat`, which
  agrees with the Rust semantics on every execution whose intermediate values
  fit the machine width.  Subtractions that the source guards with an explicit
  comparison are modelled with `Nat` subtraction (the guard makes them exact);
  unguarded subtractions are modelled with `checked_sub`, whose `none` result
  models the Rust abort on underflow.
* Explicit Rust aborts -- `panic`, `assert!`, `unwrap()`, `expect()`,
  `unreachable!()` -- are modelled as `none` in an `Option`-valued result.
* Rust `HashMap`s are modelled as association lists without duplicate keys;
  `insert` replaces in place or appends, so iteration order is the insertion
  order (a legitimate refinement of the unspecified `HashMap` order; every
  operation the sources perform on these maps is order-insensitive except
  where noted).
-/

/-- Largest value of a Rust `u64`. -/
def u64Max : Nat := 2 ^ 64 - 1

/-- Largest value of a Rust `u32` (`::std::u32::MAX`). -/
def u32Max : Nat := 2 ^ 32 - 1

/-- Rust `u64::checked_sub`: `none` on underflow.  Where the sources subtract
without a dominating guard, `none` models the debug-profile abort. -/
def checked_sub (a b : Nat) : Option Nat :=
  if b ≤ a then some (a - b) else none

/-- Rust `u64::checked_add` (with the u64 width made explicit). -/
def checked_add_u64 (a b : Nat) : Option Nat :=
  if a + b < 2 ^ 64 then some (a + b) else none

/-- Rust `u64::checked_mul` (with the u64 width made explicit). -/
def checked_mul_u64 (a b : Nat) : Option Nat :=
  if a * b < 2 ^ 64 then some (a * b) else none

/-- Association-list lookup, modelling `HashMap::get`. -/
def alookup {α : Type} [DecidableEq α] {β : Type} : List (α × β) → α → Option β
  | [], _ => none
  | (k, v) :: t, k' => if k = k' then some v else alookup t k'

/-- Association-list insert, modelling `HashMap::insert`: replaces the binding
in place when the key is present, appends otherwise. -/
def ainsert {α : Type} [DecidableEq α] {β : Type} : List (α × β) → α → β → List (α × β)
  | [], k, v => [(k, v)]
  | (k0, v0) :: t, k, v => if k0 = k then (k, v) :: t else (k0, v0) :: ainsert t k v

/-- Association-list removal, modelling `HashMap::remove`: returns the removed
value and the remaining list, or `none` when the key is absent. -/
def aremove {α : Type} [DecidableEq α] {β : Type} : List (α × β) → α → Option (β × List (α × β))
  | [], _ => none
  | (k0, v0) :: t, k =>
    if k0 = k then some (v0, t)
    else match aremove t k with
      | some (v, t') => some (v, (k0, v0) :: t')
      | none => none

/-!
## Fee-bump engine (`ln/onchain_utils.rs`, lines 806-892)

`FeeEstimator` and `MIN_RELAY_FEE_SAT_PER_1000_WEIGHT` live in
`chain/chaininterface.rs`, which is not part of this source tree; the trait is
modelled as a function from the three confirmation targets to a feerate, and
the constant is threaded through as an explicit argument, so every theorem
below holds for all estimators and all values of the constant.
-/

/-- Confirmation targets exposed by the fee estimator capability. -/
inductive ConfirmationTarget where
  | Background
  | Normal
  | HighPriority
deriving DecidableEq, Repr

/-- The `FeeEstimator` capability: one feerate (sat per 1000 weight) per tier. -/
structure FeeEstimator where
  get_est_sat_per_1000_weight : ConfirmationTarget → Nat

/-- Embedding of `subtract_high_prio_fee`: walk the tiers HighPriority, Normal,
Background top-down and return the first `(fee, feerate)` whose fee is
strictly below `input_amounts`; `none` when even Background's fee reaches
`input_amounts`. -/
def subtract_high_prio_fee (input_amounts : Nat) (predicted_weight : Nat)
    (fee_estimator : FeeEstimator) : Option (Nat × Nat) :=
  let updated_feerate := fee_estimator.get_est_sat_per_1000_weight .HighPriority
  let fee := updated_feerate * predicted_weight / 1000
  if input_amounts ≤ fee then
    let updated_feerate := fee_estimator.get_est_sat_per_1000_weight .Normal
    let fee := updated_feerate * predicted_weight / 1000
    if input_amounts ≤ fee then
      let updated_feerate := fee_estimator.get_est_sat_per_1000_weight .Background
      let fee := updated_feerate * predicted_weight / 1000
      if input_amounts ≤ fee then
        none
      else
        some (fee, updated_feerate)
    else
      some (fee, updated_feerate)
  else
    some (fee, updated_feerate)

/-- Candidate fee of `feerate_bump` before the BIP-125 floor is applied: the
fee derived from the estimator when the previous feerate fell below the
HighPriority tier, else a 25% feerate bump (`previous_feerate * weight / 750`);
`none` when the source bails out with "amount too small". -/
def feerate_bump_candidate (predicted_weight : Nat) (input_amounts : Nat)
    (previous_feerate : Nat) (fee_estimator : FeeEstimator) : Option Nat :=
  if previous_feerate < fee_estimator.get_est_sat_per_1000_weight .HighPriority then
    match subtract_high_prio_fee input_amounts predicted_weight fee_estimator with
    | some (new_fee, _) => some new_fee
    | none => none
  else
    let fee := previous_feerate * predicted_weight / 750
    if input_amounts ≤ fee then
      none
    else
      some fee

/-- Embedding of `feerate_bump`.  `min_relay_fee_per_1000_weight` stands for
the constant `MIN_RELAY_FEE_SAT_PER_1000_WEIGHT` from `chain/chaininterface.rs`
(not in this source tree).  The final division by `predicted_weight` aborts in
Rust when the weight is zero, hence the explicit guard. -/
def feerate_bump (predicted_weight : Nat) (input_amounts : Nat) (previous_feerate : Nat)
    (fee_estimator : FeeEstimator) (min_relay_fee_per_1000_weight : Nat) : Option (Nat × Nat) :=
  match feerate_bump_candidate predicted_weight input_amounts previous_feerate fee_estimator with
  | none => none
  | some new_fee =>
    let previous_fee := previous_feerate * predicted_weight / 1000
    let min_relay_fee := min_relay_fee_per_1000_weight * predicted_weight / 1000
    let new_fee :=
      if new_fee < previous_fee + min_relay_fee then
        new_fee + previous_fee + min_relay_fee - new_fee
      else
        new_fee
    if predicted_weight = 0 then none
    else some (new_fee, new_fee * 1000 / predicted_weight)

/-- Embedding of `compute_output_value`. -/
def compute_output_value (predicted_weight : Nat) (input_amounts : Nat)
    (previous_feerate : Nat) (fee_estimator : FeeEstimator)
    (min_relay_fee_per_1000_weight : Nat) : Option (Nat × Nat) :=
  if previous_feerate ≠ 0 then
    match feerate_bump predicted_weight input_amounts previous_feerate fee_estimator
        min_relay_fee_per_1000_weight with
    | some (new_fee, feerate) =>
      if new_fee > input_amounts then
        some (0, feerate)
      else
        some (input_amounts - new_fee, feerate)
    | none => none
  else
    match subtract_high_prio_fee input_amounts predicted_weight fee_estimator with
    | some (new_fee, feerate) => some (input_amounts - new_fee, feerate)
    | none => none

/-- Variant of `compute_output_value` in which every internal subtraction is a
`checked_sub`; used to state that the source's subtractions never underflow. -/
def compute_output_value_checked (predicted_weight : Nat) (input_amounts : Nat)
    (previous_feerate : Nat) (fee_estimator : FeeEstimator)
    (min_relay_fee_per_1000_weight : Nat) : Option (Nat × Nat) :=
  if previous_feerate ≠ 0 then
    match feerate_bump predicted_weight input_amounts previous_feerate fee_estimator
        min_relay_fee_per_1000_weight with
    | some (new_fee, feerate) =>
      if new_fee > input_amounts then
        some (0, feerate)
      else
        match checked_sub input_amounts new_fee with
        | some v => some (v, feerate)
        | none => none
    | none => none
  else
    match subtract_high_prio_fee input_amounts predicted_weight fee_estimator with
    | some (new_fee, feerate) =>
      match checked_sub input_amounts new_fee with
      | some v => some (v, feerate)
      | none => none
    | none => none

/-- A concrete fee estimator used to exercise the fee engine on sample inputs. -/
def exEstimator : FeeEstimator :=
  ⟨fun t => match t with
    | .HighPriority => 5000
    | .Normal => 1000
    | .Background => 253⟩

/-- A fee estimator whose three tiers all answer 1000 sat per 1000 weight. -/
def flatEstimator : FeeEstimator := ⟨fun _ => 1000⟩

/-!
## Package templates (`ln/onchain_utils.rs`, lines 28-379)

Key material, hashes and scripts are opaque data to every operation modelled
here: the sources only store, compare and serialize them.  Public keys,
secret keys, txids, preimages are therefore modelled as `Nat` (standing for
their fixed-width byte strings) and scripts as byte lists.
`HTLCOutputInCommitment` lives in `ln/chan_utils.rs`, which is not part of
this source tree.  Modelled from the spec: the htlc record carries the fields
the package operations consume, `amount_msat` (u64) and `cltv_expiry` (u32).
-/

/-- Modelled from the spec: `HTLCOutputInCommitment` (from the missing
`ln/chan_utils.rs`) restricted to the fields `onchain_utils.rs` uses. -/
structure HTLCOutputInCommitment where
  amount_msat : Nat
  cltv_expiry : Nat
deriving DecidableEq, Repr

/-- Embedding of the `InputDescriptors` enum. -/
inductive InputDescriptors where
  | RevokedOfferedHTLC
  | RevokedReceivedHTLC
  | OfferedHTLC
  | ReceivedHTLC
  | RevokedOutput
deriving DecidableEq, Repr

/-- Embedding of `get_witnesses_weight`. -/
def get_witnesses_weight (inputs : List InputDescriptors) : Nat :=
  inputs.foldl
    (fun tx_weight inp =>
      tx_weight +
        match inp with
        | .RevokedOfferedHTLC => 1 + 1 + 73 + 1 + 33 + 1 + 133
        | .RevokedReceivedHTLC => 1 + 1 + 73 + 1 + 33 + 1 + 139
        | .OfferedHTLC => 1 + 1 + 73 + 1 + 32 + 1 + 133
        | .ReceivedHTLC => 1 + 1 + 73 + 1 + 1 + 1 + 139
        | .RevokedOutput => 1 + 1 + 73 + 1 + 1 + 1 + 77)
    2

/-- Embedding of the `RevokedOutput` struct. -/
structure RevokedOutput where
  per_commitment_point : Nat
  remote_delayed_payment_base_key : Nat
  remote_htlc_base_key : Nat
  per_commitment_key : Nat
  input_descriptor : InputDescriptors
  amount : Nat
  htlc : Option HTLCOutputInCommitment
  on_remote_tx_csv : Nat
deriving DecidableEq, Repr

/-- Embedding of the `RemoteHTLCOutput` struct. -/
structure RemoteHTLCOutput where
  per_commitment_point : Nat
  remote_delayed_payment_base_key : Nat
  remote_htlc_base_key : Nat
  preimage : Option Nat
  htlc : HTLCOutputInCommitment
deriving DecidableEq, Repr

/-- Embedding of the `LocalHTLCOutput` struct. -/
structure LocalHTLCOutput where
  preimage : Option Nat
  amount : Nat
deriving DecidableEq, Repr

/-- Embedding of the `LocalFundingOutput` struct; the script is a byte list. -/
structure LocalFundingOutput where
  funding_redeemscript : List Nat
deriving DecidableEq, Repr

/-- Bitcoin outpoint `(txid, vout)` (from `rust-bitcoin`, identity only). -/
structure BitcoinOutPoint where
  txid : Nat
  vout : Nat
deriving DecidableEq, Repr

/-- Embedding of the `PackageTemplate` enum; the `HashMap`s of the Malleable*
variants become association lists (see the header conventions). -/
inductive PackageTemplate where
  | MalleableJusticeTx (inputs : List (BitcoinOutPoint × RevokedOutput))
  | RemoteHTLCTx (inputs : List (BitcoinOutPoint × RemoteHTLCOutput))
  | LocalHTLCTx (input : BitcoinOutPoint × LocalHTLCOutput)
  | LocalCommitmentTx (input : BitcoinOutPoint × LocalFundingOutput)
deriving DecidableEq, Repr

/-- Embedding of `PackageTemplate::outpoints`. -/
def PackageTemplate.outpoints : PackageTemplate → List BitcoinOutPoint
  | .MalleableJusticeTx inputs => inputs.map Prod.fst
  | .RemoteHTLCTx inputs => inputs.map Prod.fst
  | .LocalHTLCTx input => [input.1]
  | .LocalCommitmentTx input => [input.1]

/-- Embedding of `PackageTemplate::package_split`.  The result pairs the
mutated receiver with the returned `Option<PackageTemplate>`; the outer
`Option` is the abort channel and is never `none` here, because the source
deliberately returns `None` instead of aborting on the Local* variants (see
its comment at lines 323-330). -/
def PackageTemplate.package_split :
    PackageTemplate → BitcoinOutPoint → Option (PackageTemplate × Option PackageTemplate)
  | .MalleableJusticeTx inputs, outp =>
    (match aremove inputs outp with
     | some (removed, rest) =>
       some (.MalleableJusticeTx rest, some (.MalleableJusticeTx [(outp, removed)]))
     | none => some (.MalleableJusticeTx inputs, none))
  | .RemoteHTLCTx inputs, outp =>
    (match aremove inputs outp with
     | some (removed, rest) =>
       some (.RemoteHTLCTx rest, some (.RemoteHTLCTx [(outp, removed)]))
     | none => some (.RemoteHTLCTx inputs, none))
  | p, _ => some (p, none)

/-- Drain `other` into `base` by repeated `HashMap::insert`. -/
def drain_into {β : Type} (base other : List (BitcoinOutPoint × β)) :
    List (BitcoinOutPoint × β) :=
  other.foldl (fun acc kv => ainsert acc kv.1 kv.2) base

/-- Embedding of `PackageTemplate::package_merge`; `none` models the aborts
on a variant mismatch and on non-malleable receivers. -/
def PackageTemplate.package_merge : PackageTemplate → PackageTemplate → Option PackageTemplate
  | .MalleableJusticeTx base, .MalleableJusticeTx other =>
    some (.MalleableJusticeTx (drain_into base other))
  | .MalleableJusticeTx _, _ => none
  | .RemoteHTLCTx base, .RemoteHTLCTx other =>
    some (.RemoteHTLCTx (drain_into base other))
  | .RemoteHTLCTx _, _ => none
  | _, _ => none

/-- Embedding of `PackageTemplate::package_amounts`. -/
def PackageTemplate.package_amounts : PackageTemplate → Nat
  | .MalleableJusticeTx inputs => inputs.foldl (fun amounts outp => amounts + outp.2.amount) 0
  | .RemoteHTLCTx inputs =>
    inputs.foldl (fun amounts outp => amounts + outp.2.htlc.amount_msat / 1000) 0
  | _ => 0

/-!
## Onchain requests (`ln/onchain_utils.rs`, lines 657-768)
-/

/-- Embedding of the `BumpStrategy` enum. -/
inductive BumpStrategy where
  | RBF
  | CPFP
deriving DecidableEq, Repr

/-- Embedding of the `OnchainRequest` struct. -/
structure OnchainRequest where
  aggregation : Bool
  bump_strategy : BumpStrategy
  feerate_previous : Nat
  height_timer : Option Nat
  absolute_timelock : Nat
  height_original : Nat
  content : PackageTemplate
deriving DecidableEq, Repr

/-- Embedding of `Default for OnchainRequest`. -/
def OnchainRequest.default : OnchainRequest :=
  { aggregation := true
    bump_strategy := .RBF
    feerate_previous := 0
    height_timer := none
    absolute_timelock := u32Max
    height_original := 0
    content := .MalleableJusticeTx [] }

/-- Embedding of `OnchainRequest::request_merge`; `none` models the
`assert_eq` abort on mismatched trigger heights and the abort inside
`package_merge`. -/
def OnchainRequest.request_merge (self req : OnchainRequest) : Option OnchainRequest :=
  if self.absolute_timelock = u32Max then
    some { self with
      height_original := req.height_original
      content := req.content
      absolute_timelock := req.absolute_timelock }
  else if self.height_original = req.height_original then
    let self :=
      if self.absolute_timelock > req.absolute_timelock then
        { self with absolute_timelock := req.absolute_timelock }
      else self
    match self.content.package_merge req.content with
    | some c => some { self with content := c }
    | none => none
  else none

/-- A sample revoked output claiming 5 satoshis. -/
def exRevoked5 : RevokedOutput :=
  { per_commitment_point := 1
    remote_delayed_payment_base_key := 2
    remote_htlc_base_key := 3
    per_commitment_key := 4
    input_descriptor := .RevokedOutput
    amount := 5
    htlc := none
    on_remote_tx_csv := 144 }

/-- A sample revoked output claiming 7 satoshis. -/
def exRevoked7 : RevokedOutput :=
  { exRevoked5 with amount := 7 }

/-!
## Serialization of `PackageTemplate` (`ln/onchain_utils.rs`, lines 37-82, 129-254, 576-655)

A wire stream is a list of bytes.  The variant tag, the big-endian u64 entry
count and the entry framing are taken from the source.  The component codecs
(`PublicKey`, `SecretKey`, `Txid`, `PaymentPreimage`, `Script`, `Option`,
`HTLCOutputInCommitment`, integers) live in `util/ser.rs`, `ln/chan_utils.rs`
and `rust-bitcoin`, which are not part of this source tree.  Modelled from the
spec: fields are serialized in declaration order at their fixed widths
(pubkeys 33 bytes, secret keys / txids / preimages 32 bytes, integers
big-endian at their width), an `Option` is a presence byte 0/1 followed by the
value, and a script is a 2-byte length followed by its bytes. -/

/-- Big-endian byte encoding of `n` at width `w`. -/
def natToBytes : Nat → Nat → List Nat
  | 0, _ => []
  | w + 1, n => natToBytes w (n / 256) ++ [n % 256]

/-- Big-endian byte decoding. -/
def bytesToNat (l : List Nat) : Nat :=
  l.foldl (fun acc b => acc * 256 + b) 0

/-- Decode error kinds: `InvalidValue` from `DecodeError`, `ShortRead` for the
underlying io error on a truncated stream. -/
inductive DecodeError where
  | InvalidValue
  | ShortRead
deriving DecidableEq, Repr

/-- Read a big-endian integer of width `w` from the stream. -/
def read_be (w : Nat) (s : List Nat) : Except DecodeError (Nat × List Nat) :=
  if w ≤ s.length then .ok (bytesToNat (s.take w), s.drop w) else .error .ShortRead

/-- Read `w` raw bytes from the stream. -/
def read_raw (w : Nat) (s : List Nat) : Except DecodeError (List Nat × List Nat) :=
  if w ≤ s.length then .ok (s.take w, s.drop w) else .error .ShortRead

/-- Serialize an optional value: presence byte then payload. -/
def write_option {β : Type} (write_val : β → List Nat) : Option β → List Nat
  | none => [0]
  | some v => 1 :: write_val v

/-- Read an optional value; any presence byte other than 0 or 1 is invalid. -/
def read_option {β : Type} (read_val : List Nat → Except DecodeError (β × List Nat))
    (s : List Nat) : Except DecodeError (Option β × List Nat) := do
  let (b, s) ← read_be 1 s
  match b with
  | 0 => .ok (none, s)
  | 1 => do
    let (v, s) ← read_val s
    .ok (some v, s)
  | _ => .error .InvalidValue

/-- Serialize `InputDescriptors` (source `Writeable` impl, one tag byte). -/
def InputDescriptors.write : InputDescriptors → List Nat
  | .RevokedOfferedHTLC => [0]
  | .RevokedReceivedHTLC => [1]
  | .OfferedHTLC => [2]
  | .ReceivedHTLC => [3]
  | .RevokedOutput => [4]

/-- Read `InputDescriptors` (source `Readable` impl; tags above 4 invalid). -/
def InputDescriptors.read (s : List Nat) :
    Except DecodeError (InputDescriptors × List Nat) := do
  let (b, s) ← read_be 1 s
  match b with
  | 0 => .ok (.RevokedOfferedHTLC, s)
  | 1 => .ok (.RevokedReceivedHTLC, s)
  | 2 => .ok (.OfferedHTLC, s)
  | 3 => .ok (.ReceivedHTLC, s)
  | 4 => .ok (.RevokedOutput, s)
  | _ => .error .InvalidValue

/-- Wellformedness of an htlc record: fields fit their machine widths. -/
def HTLCOutputInCommitment.WF (h : HTLCOutputInCommitment) : Prop :=
  h.amount_msat < 256 ^ 8 ∧ h.cltv_expiry < 256 ^ 4

instance : DecidablePred HTLCOutputInCommitment.WF := fun h =>
  inferInstanceAs (Decidable (_ ∧ _))

/-- Serialize an htlc record: amount then cltv expiry. -/
def HTLCOutputInCommitment.write (h : HTLCOutputInCommitment) : List Nat :=
  natToBytes 8 h.amount_msat ++ natToBytes 4 h.cltv_expiry

/-- Read an htlc record. -/
def HTLCOutputInCommitment.read (s : List Nat) :
    Except DecodeError (HTLCOutputInCommitment × List Nat) := do
  let (amount_msat, s) ← read_be 8 s
  let (cltv_expiry, s) ← read_be 4 s
  .ok ({ amount_msat, cltv_expiry }, s)

/-- Wellformedness of a revoked output: fields fit their wire widths. -/
def RevokedOutput.WF (r : RevokedOutput) : Prop :=
  r.per_commitment_point < 256 ^ 33 ∧ r.remote_delayed_payment_base_key < 256 ^ 33 ∧
  r.remote_htlc_base_key < 256 ^ 33 ∧ r.per_commitment_key < 256 ^ 32 ∧
  r.amount < 256 ^ 8 ∧ (∀ h ∈ r.htlc, h.WF) ∧ r.on_remote_tx_csv < 256 ^ 2

instance : DecidablePred RevokedOutput.WF := fun r =>
  inferInstanceAs (Decidable (_ ∧ _))

/-- Serialize a revoked output (source `Writeable` impl, field order). -/
def RevokedOutput.write (r : RevokedOutput) : List Nat :=
  natToBytes 33 r.per_commitment_point ++
  natToBytes 33 r.remote_delayed_payment_base_key ++
  natToBytes 33 r.remote_htlc_base_key ++
  natToBytes 32 r.per_commitment_key ++
  r.input_descriptor.write ++
  natToBytes 8 r.amount ++
  write_option HTLCOutputInCommitment.write r.htlc ++
  natToBytes 2 r.on_remote_tx_csv

/-- Read a revoked output (source `Readable` impl, field order). -/
def RevokedOutput.read (s : List Nat) :
    Except DecodeError (RevokedOutput × List Nat) := do
  let (per_commitment_point, s) ← read_be 33 s
  let (remote_delayed_payment_base_key, s) ← read_be 33 s
  let (remote_htlc_base_key, s) ← read_be 33 s
  let (per_commitment_key, s) ← read_be 32 s
  let (input_descriptor, s) ← InputDescriptors.read s
  let (amount, s) ← read_be 8 s
  let (htlc, s) ← read_option HTLCOutputInCommitment.read s
  let (on_remote_tx_csv, s) ← read_be 2 s
  .ok ({ per_commitment_point, remote_delayed_payment_base_key, remote_htlc_base_key,
         per_commitment_key, input_descriptor, amount, htlc, on_remote_tx_csv }, s)

/-- Wellformedness of a remote htlc output. -/
def RemoteHTLCOutput.WF (r : RemoteHTLCOutput) : Prop :=
  r.per_commitment_point < 256 ^ 33 ∧ r.remote_delayed_payment_base_key < 256 ^ 33 ∧
  r.remote_htlc_base_key < 256 ^ 33 ∧ (∀ p ∈ r.preimage, p < 256 ^ 32) ∧ r.htlc.WF

instance : DecidablePred RemoteHTLCOutput.WF := fun r =>
  inferInstanceAs (Decidable (_ ∧ _))

/-- Serialize a remote htlc output (source `Writeable` impl, field order). -/
def RemoteHTLCOutput.write (r : RemoteHTLCOutput) : List Nat :=
  natToBytes 33 r.per_commitment_point ++
  natToBytes 33 r.remote_delayed_payment_base_key ++
  natToBytes 33 r.remote_htlc_base_key ++
  write_option (natToBytes 32) r.preimage ++
  r.htlc.write

/-- Read a remote htlc output (source `Readable` impl, field order). -/
def RemoteHTLCOutput.read (s : List Nat) :
    Except DecodeError (RemoteHTLCOutput × List Nat) := do
  let (per_commitment_point, s) ← read_be 33 s
  let (remote_delayed_payment_base_key, s) ← read_be 33 s
  let (remote_htlc_base_key, s) ← read_be 33 s
  let (preimage, s) ← read_option (read_be 32) s
  let (htlc, s) ← HTLCOutputInCommitment.read s
  .ok ({ per_commitment_point, remote_delayed_payment_base_key, remote_htlc_base_key,
         preimage, htlc }, s)

/-- Wellformedness of a local htlc output. -/
def LocalHTLCOutput.WF (l : LocalHTLCOutput) : Prop :=
  (∀ p ∈ l.preimage, p < 256 ^ 32) ∧ l.amount < 256 ^ 8

instance : DecidablePred LocalHTLCOutput.WF := fun l =>
  inferInstanceAs (Decidable (_ ∧ _))

/-- Serialize a local htlc output (source `Writeable` impl, field order). -/
def LocalHTLCOutput.write (l : LocalHTLCOutput) : List Nat :=
  write_option (natToBytes 32) l.preimage ++ natToBytes 8 l.amount

/-- Read a local htlc output (source `Readable` impl, field order). -/
def LocalHTLCOutput.read (s : List Nat) :
    Except DecodeError (LocalHTLCOutput × List Nat) := do
  let (preimage, s) ← read_option (read_be 32) s
  let (amount, s) ← read_be 8 s
  .ok ({ preimage, amount }, s)

/-- Wellformedness of a local funding output: the script fits a 2-byte
length prefix and holds bytes. -/
def LocalFundingOutput.WF (l : LocalFundingOutput) : Prop :=
  l.funding_redeemscript.length < 256 ^ 2 ∧ ∀ b ∈ l.funding_redeemscript, b < 256

instance : DecidablePred LocalFundingOutput.WF := fun l =>
  inferInstanceAs (Decidable (_ ∧ _))

/-- Serialize a local funding output: length-prefixed script bytes. -/
def LocalFundingOutput.write (l : LocalFundingOutput) : List Nat :=
  natToBytes 2 l.funding_redeemscript.length ++ l.funding_redeemscript

/-- Read a local funding output. -/
def LocalFundingOutput.read (s : List Nat) :
    Except DecodeError (LocalFundingOutput × List Nat) := do
  let (len, s) ← read_be 2 s
  let (script, s) ← read_raw len s
  .ok ({ funding_redeemscript := script }, s)

/-- Wellformedness of an outpoint: txid and vout fit their wire widths. -/
def BitcoinOutPoint.WF (o : BitcoinOutPoint) : Prop :=
  o.txid < 256 ^ 32 ∧ o.vout < 256 ^ 4

instance : DecidablePred BitcoinOutPoint.WF := fun o =>
  inferInstanceAs (Decidable (_ ∧ _))

/-- Serialize an outpoint: txid then vout. -/
def BitcoinOutPoint.write (o : BitcoinOutPoint) : List Nat :=
  natToBytes 32 o.txid ++ natToBytes 4 o.vout

/-- Read an outpoint. -/
def BitcoinOutPoint.read (s : List Nat) :
    Except DecodeError (BitcoinOutPoint × List Nat) := do
  let (txid, s) ← read_be 32 s
  let (vout, s) ← read_be 4 s
  .ok ({ txid, vout }, s)

/-- Serialize the entries of a Malleable* map in iteration order. -/
def write_entries {β : Type} (write_val : β → List Nat) :
    List (BitcoinOutPoint × β) → List Nat
  | [] => []
  | kv :: t => kv.1.write ++ write_val kv.2 ++ write_entries write_val t

/-- Read `n` entries of a Malleable* map, inserting each in turn. -/
def read_entries {β : Type}
    (read_val : List Nat → Except DecodeError (β × List Nat)) :
    Nat → List (BitcoinOutPoint × β) → List Nat →
    Except DecodeError (List (BitcoinOutPoint × β) × List Nat)
  | 0, inputs, s => .ok (inputs, s)
  | n + 1, inputs, s => do
    let (outpoint, s) ← BitcoinOutPoint.read s
    let (v, s) ← read_val s
    read_entries read_val n (ainsert inputs outpoint v) s

/-- Serialize a `PackageTemplate` (source `Writeable` impl): variant tag,
then for Malleable* a big-endian u64 entry count and the entries, for Local*
the one outpoint and output. -/
def PackageTemplate.write : PackageTemplate → List Nat
  | .MalleableJusticeTx inputs =>
    0 :: (natToBytes 8 inputs.length ++ write_entries RevokedOutput.write inputs)
  | .RemoteHTLCTx inputs =>
    1 :: (natToBytes 8 inputs.length ++ write_entries RemoteHTLCOutput.write inputs)
  | .LocalHTLCTx input => 2 :: (input.1.write ++ input.2.write)
  | .LocalCommitmentTx input => 3 :: (input.1.write ++ input.2.write)

/-- Read a `PackageTemplate` (source `Readable` impl).  The source caps the
pre-allocation at `min(count, MAX_ALLOC_SIZE / 128)` entries; that bounds
memory reservation only and has no effect on the decoded value, so it has no
counterpart here.  Tags of 4 and above are rejected as `InvalidValue`. -/
def PackageTemplate.read (s : List Nat) :
    Except DecodeError (PackageTemplate × List Nat) := do
  let (tag, s) ← read_be 1 s
  match tag with
  | 0 => do
    let (inputs_count, s) ← read_be 8 s
    let (inputs, s) ← read_entries RevokedOutput.read inputs_count [] s
    .ok (.MalleableJusticeTx inputs, s)
  | 1 => do
    let (inputs_count, s) ← read_be 8 s
    let (inputs, s) ← read_entries RemoteHTLCOutput.read inputs_count [] s
    .ok (.RemoteHTLCTx inputs, s)
  | 2 => do
    let (outpoint, s) ← BitcoinOutPoint.read s
    let (htlc_outp, s) ← LocalHTLCOutput.read s
    .ok (.LocalHTLCTx (outpoint, htlc_outp), s)
  | 3 => do
    let (outpoint, s) ← BitcoinOutPoint.read s
    let (funding_outp, s) ← LocalFundingOutput.read s
    .ok (.LocalCommitmentTx (outpoint, funding_outp), s)
  | _ => .error .InvalidValue

/-- Wellformedness of a package template: map keys are duplicate-free (a
`HashMap` invariant), the entry count fits a u64, and every component fits
its wire width. -/
def PackageTemplate.WF : PackageTemplate → Prop
  | .MalleableJusticeTx inputs =>
    inputs.length < 256 ^ 8 ∧ (inputs.map Prod.fst).Nodup ∧
      ∀ kv ∈ inputs, kv.1.WF ∧ kv.2.WF
  | .RemoteHTLCTx inputs =>
    inputs.length < 256 ^ 8 ∧ (inputs.map Prod.fst).Nodup ∧
      ∀ kv ∈ inputs, kv.1.WF ∧ kv.2.WF
  | .LocalHTLCTx input => input.1.WF ∧ input.2.WF
  | .LocalCommitmentTx input => input.1.WF ∧ input.2.WF

instance : DecidablePred PackageTemplate.WF := fun P => by
  cases P <;> exact inferInstanceAs (Decidable (_ ∧ _))

/-- A sample initialized onchain request wrapping a local HTLC claim. -/
def exRequest : OnchainRequest :=
  { aggregation := false
    bump_strategy := .CPFP
    feerate_previous := 42
    height_timer := some 7
    absolute_timelock := 500
    height_original := 100
    content := .LocalHTLCTx (⟨7, 0⟩, ⟨none, 3000⟩) }

/-!
## Router (`routing/router.rs`)

The network-graph containers (`NetworkGraph`, `NodeInfo`, `ChannelInfo`,
`DirectionalChannelInfo`, `RoutingFees`) live in `routing/network_graph.rs`
and `ChannelDetails` in `ln/channelmanager.rs`, neither of which is part of
this source tree; they are modelled from the spec (section 3, "Routing
Types") restricted to the fields `get_route` consumes.  Feature sets are
opaque to the router except for their `requires_unknown_bits()` flag, which
is modelled as a single bit.  Public keys are opaque identifiers modelled as
`Nat`; the heap tiebreak compares serialized keys, whose byte-lexicographic
order on fixed-width strings coincides with the numeric order.  The
`but-last` loops of the source are fuelled: `none` on fuel exhaustion models
a non-terminating (hence non-successful) call and every theorem quantifies
over the fuel.
-/

/-- An opaque secp256k1 public key identifier. -/
abbrev PubKey := Nat

/-- Node feature flags, reduced to the one bit the router inspects. -/
structure NodeFeatures where
  requires_unknown_bits : Bool
deriving DecidableEq, Repr

/-- Channel feature flags, reduced to the one bit the router inspects. -/
structure ChannelFeatures where
  requires_unknown_bits : Bool
deriving DecidableEq, Repr

/-- Init feature flags (carried by `ChannelDetails`). -/
structure InitFeatures where
  requires_unknown_bits : Bool
deriving DecidableEq, Repr

def NodeFeatures.empty : NodeFeatures := ⟨false⟩

def ChannelFeatures.empty : ChannelFeatures := ⟨false⟩

/-- `InitFeatures::to_context::<NodeFeatures>()`. -/
def InitFeatures.to_context_node (f : InitFeatures) : NodeFeatures :=
  ⟨f.requires_unknown_bits⟩

/-- `InitFeatures::to_context::<ChannelFeatures>()`. -/
def InitFeatures.to_context_channel (f : InitFeatures) : ChannelFeatures :=
  ⟨f.requires_unknown_bits⟩

/-- Fees charged by a channel (`RoutingFees`, both fields u32). -/
structure RoutingFees where
  base_msat : Nat
  proportional_millionths : Nat
deriving DecidableEq, Repr

/-- Embedding of `compute_fees` (router): `checked_mul`/`checked_add` with
`unreachable!()` -- modelled as `none` -- on u64 overflow. -/
def compute_fees (amount_msat : Nat) (channel_fees : RoutingFees) : Option Nat :=
  match checked_mul_u64 amount_msat channel_fees.proportional_millionths with
  | some proportional_fee_millions =>
    checked_add_u64 channel_fees.base_msat (proportional_fee_millions / 1000000)
  | none => none

/-- Embedding of `RouteHop`. -/
structure RouteHop where
  pubkey : PubKey
  node_features : NodeFeatures
  short_channel_id : Nat
  channel_features : ChannelFeatures
  fee_msat : Nat
  cltv_expiry_delta : Nat
deriving DecidableEq, Repr

/-- Embedding of `Route`. -/
structure Route where
  paths : List (List RouteHop)
deriving DecidableEq, Repr

/-- Embedding of `RouteHint`. -/
structure RouteHint where
  src_node_id : PubKey
  short_channel_id : Nat
  fees : RoutingFees
  cltv_expiry_delta : Nat
  htlc_minimum_msat : Nat
  htlc_maximum_msat : Option Nat
deriving DecidableEq, Repr

/-- Embedding of `RouteGraphNode`, the priority-queue key. -/
structure RouteGraphNode where
  pubkey : PubKey
  lowest_fee_to_peer_through_node : Nat
  lowest_fee_to_node : Nat
deriving DecidableEq, Repr

/-- `BinaryHeap::pop` under the source `Ord`: the greatest element is the one
with the least `(lowest_fee_to_peer_through_node, pubkey serialization)` pair
(both comparisons are reversed in the source).  The first occurrence wins
among fully tied elements, resolving the unspecified `BinaryHeap` order. -/
def heap_pop : List RouteGraphNode → Option (RouteGraphNode × List RouteGraphNode)
  | [] => none
  | x :: xs =>
    match heap_pop xs with
    | none => some (x, [])
    | some (y, ys) =>
      if y.lowest_fee_to_peer_through_node < x.lowest_fee_to_peer_through_node ∨
          (y.lowest_fee_to_peer_through_node = x.lowest_fee_to_peer_through_node ∧
            y.pubkey < x.pubkey) then
        some (y, x :: ys)
      else
        some (x, xs)

/-- Directional channel data (`DirectionalChannelInfo`), restricted to the
fields the router reads; `last_update_message` is unused and omitted. -/
structure DirectionalChannelInfo where
  last_update : Nat
  enabled : Bool
  cltv_expiry_delta : Nat
  htlc_minimum_msat : Nat
  htlc_maximum_msat : Option Nat
  fees : RoutingFees
deriving DecidableEq, Repr

/-- Modelled from the spec: `DirectionalChannelInfo::default()` zeroes every
field (disabled, no limits, zero fees). -/
def DirectionalChannelInfo.default : DirectionalChannelInfo :=
  { last_update := 0
    enabled := false
    cltv_expiry_delta := 0
    htlc_minimum_msat := 0
    htlc_maximum_msat := none
    fees := { base_msat := 0, proportional_millionths := 0 } }

/-- Channel data (`ChannelInfo`), restricted to the fields the router reads. -/
structure ChannelInfo where
  features : ChannelFeatures
  node_one : PubKey
  one_to_two : Option DirectionalChannelInfo
  node_two : PubKey
  two_to_one : Option DirectionalChannelInfo
  capacity_sats : Option Nat
deriving DecidableEq, Repr

/-- Announcement data of a node, restricted to its feature flags. -/
structure NodeAnnouncementInfo where
  features : NodeFeatures
deriving DecidableEq, Repr

/-- Node data (`NodeInfo`), restricted to the fields the router reads. -/
structure NodeInfo where
  channels : List Nat
  lowest_inbound_channel_fees : Option RoutingFees
  announcement_info : Option NodeAnnouncementInfo
deriving DecidableEq, Repr

/-- The network graph: channels keyed by short channel id, nodes by key. -/
structure NetworkGraph where
  channels : List (Nat × ChannelInfo)
  nodes : List (PubKey × NodeInfo)
deriving DecidableEq, Repr

def NetworkGraph.get_channels (n : NetworkGraph) : List (Nat × ChannelInfo) := n.channels

def NetworkGraph.get_nodes (n : NetworkGraph) : List (PubKey × NodeInfo) := n.nodes

/-- Caller-supplied first-hop channel data (`ChannelDetails`), restricted to
the fields the router reads. -/
structure ChannelDetails where
  short_channel_id : Option Nat
  remote_network_id : PubKey
  counterparty_features : InitFeatures
deriving DecidableEq, Repr

/-- Embedding of `PaymentHop`. -/
structure PaymentHop where
  route_hop : RouteHop
  available_liquidity_msat : Nat
  src_lowest_inbound_fees : RoutingFees
  channel_fees : RoutingFees
  following_hops_fees_msat : Nat
  hop_use_fee_msat : Nat
  prev_hop_use_estimate_fee_msat : Nat
deriving DecidableEq, Repr

/-- Embedding of `PaymentHop::get_fee_weight_msat`: checked additions
saturating to `u64::MAX`. -/
def PaymentHop.get_fee_weight_msat (h : PaymentHop) : Nat :=
  match checked_add_u64 h.hop_use_fee_msat h.prev_hop_use_estimate_fee_msat with
  | some fee_msat =>
    match checked_add_u64 fee_msat h.following_hops_fees_msat with
    | some total_fee_msat => total_fee_msat
    | none => u64Max
  | none => u64Max

/-- Embedding of `PaymentHop::get_fee_paid_msat`: checked addition saturating
to `u64::MAX`. -/
def PaymentHop.get_fee_paid_msat (h : PaymentHop) : Nat :=
  match checked_add_u64 h.following_hops_fees_msat h.route_hop.fee_msat with
  | some fee_paid_msat => fee_paid_msat
  | none => u64Max

/-- Embedding of `PaymentPath`. -/
structure PaymentPath where
  hops : List PaymentHop
deriving DecidableEq, Repr

/-- A placeholder hop used only to totalise `last().unwrap()` on paths, which
the router never builds empty. -/
def dummyPaymentHop : PaymentHop :=
  { route_hop :=
      { pubkey := 0
        node_features := NodeFeatures.empty
        short_channel_id := 0
        channel_features := ChannelFeatures.empty
        fee_msat := 0
        cltv_expiry_delta := 0 }
    available_liquidity_msat := 0
    src_lowest_inbound_fees := { base_msat := 0, proportional_millionths := 0 }
    channel_fees := { base_msat := 0, proportional_millionths := 0 }
    following_hops_fees_msat := 0
    hop_use_fee_msat := 0
    prev_hop_use_estimate_fee_msat := 0 }

/-- Embedding of `PaymentPath::get_value_msat` (`hops.last().unwrap()`; the
router only calls this on the nonempty paths it constructs). -/
def PaymentPath.get_value_msat (p : PaymentPath) : Nat :=
  (p.hops.getLastD dummyPaymentHop).route_hop.fee_msat

/-- Embedding of `PaymentPath::get_total_fee_paid_msat`. -/
def PaymentPath.get_total_fee_paid_msat (p : PaymentPath) : Nat :=
  if p.hops.length < 1 then 0
  else (p.hops.headD dummyPaymentHop).following_hops_fees_msat

/-- Backward pass of `update_value_and_recompute_fees` over `hops[1..]`
(source indices n-1 down to 1): refresh `following_hops_fees_msat` and
`hop_use_fee_msat` and accumulate the total fee. -/
def recompute_rev (value_msat : Nat) : List PaymentHop → Option (List PaymentHop × Nat)
  | [] => some ([], 0)
  | cur_hop :: t => do
    let (t', total_fee_paid_msat) ← recompute_rev value_msat t
    let cur_hop_amount_msat := total_fee_paid_msat + value_msat
    let new_fee ← compute_fees cur_hop_amount_msat cur_hop.channel_fees
    some ({ cur_hop with
        following_hops_fees_msat := total_fee_paid_msat
        hop_use_fee_msat := new_fee } :: t',
      total_fee_paid_msat + new_fee)

/-- Forward pass of `update_value_and_recompute_fees`: each hop's `fee_msat`
becomes the next hop's `hop_use_fee_msat`; the last hop's becomes the value
transferred. -/
def propagate_fees (value_msat : Nat) : List PaymentHop → List PaymentHop
  | [] => []
  | [h] => [{ h with route_hop := { h.route_hop with fee_msat := value_msat } }]
  | h :: h' :: t =>
    { h with route_hop := { h.route_hop with fee_msat := h'.hop_use_fee_msat } } ::
      propagate_fees value_msat (h' :: t)

/-- Embedding of `PaymentPath::update_value_and_recompute_fees`; `none`
models the abort of `last_mut().unwrap()` on an empty path and the overflow
abort inside `compute_fees`. -/
def PaymentPath.update_value_and_recompute_fees (p : PaymentPath) (value_msat : Nat) :
    Option PaymentPath :=
  match p.hops with
  | [] => none
  | h0 :: t => do
    let (t', _) ← recompute_rev value_msat t
    some ⟨propagate_fees value_msat (h0 :: t')⟩

/-- Embedding of `RoutingState`. -/
structure RoutingState where
  targeted_edges : List RouteGraphNode
  weighted_vertices : List (PubKey × PaymentHop)
  payer_node_id : PubKey
  bookkeeped_channels_liquidity_available_msat : List (Nat × Nat)
  recommended_value_msat : Nat
  already_collected_value_msat : Nat
deriving Repr

/-- Embedding of `RoutingState::add_vertice`.  Aborts (`none`) on: the
unguarded subtraction `recommended - already_collected` (never reached
underflowing), the `nodes.get(src).unwrap()` on a source node missing from
the graph, and overflow inside `compute_fees`. -/
def RoutingState.add_vertice (state : RoutingState) (scid : Nat)
    (src_node_id dest_node_id : PubKey) (directional_info : DirectionalChannelInfo)
    (capacity_sats : Option Nat) (features : ChannelFeatures)
    (following_hops_fees_msat : Nat) (network : NetworkGraph) : Option RoutingState := do
  let (available_liquidity_msat, book) :=
    match alookup state.bookkeeped_channels_liquidity_available_msat scid with
    | some v => (v, state.bookkeeped_channels_liquidity_available_msat)
    | none =>
      let initial_liquidity_available_msat :=
        match capacity_sats, directional_info.htlc_maximum_msat with
        | some capacity, some htlc_maximum_msat => min (capacity * 1000) htlc_maximum_msat
        | some capacity, none => capacity * 1000
        | none, some htlc_maximum_msat => htlc_maximum_msat
        | none, none => 10000 * 1000
      (initial_liquidity_available_msat,
        ainsert state.bookkeeped_channels_liquidity_available_msat scid
          initial_liquidity_available_msat)
  let value_left_to_collect_msat ←
    checked_sub state.recommended_value_msat state.already_collected_value_msat
  let minimal_liquidity_contribution_msat := value_left_to_collect_msat / 20
  let has_sufficient_liquidity : Bool :=
    minimal_liquidity_contribution_msat ≤ available_liquidity_msat
  let can_cover_following_hops : Bool :=
    following_hops_fees_msat < available_liquidity_msat
  let amount_to_transfer_over_msat : Nat :=
    min available_liquidity_msat value_left_to_collect_msat
  if has_sufficient_liquidity && can_cover_following_hops &&
      decide (directional_info.htlc_minimum_msat ≤ amount_to_transfer_over_msat) then
    let (old_entry, weighted_vertices) ←
      match alookup state.weighted_vertices src_node_id with
      | some e => some (e, state.weighted_vertices)
      | none =>
        match alookup network.get_nodes src_node_id with
        | none => none
        | some node =>
          let fees :=
            match node.lowest_inbound_channel_fees with
            | some fees => fees
            | none => { base_msat := u32Max, proportional_millionths := u32Max }
          let dummy : PaymentHop :=
            { route_hop :=
                { pubkey := dest_node_id
                  node_features := NodeFeatures.empty
                  short_channel_id := 0
                  channel_features := features
                  fee_msat := 0
                  cltv_expiry_delta := 0 }
              available_liquidity_msat := 0
              src_lowest_inbound_fees := fees
              channel_fees := directional_info.fees
              following_hops_fees_msat := u64Max
              hop_use_fee_msat := u64Max
              prev_hop_use_estimate_fee_msat := u64Max }
          some (dummy, ainsert state.weighted_vertices src_node_id dummy)
    let hop_use_fee_msat ← compute_fees amount_to_transfer_over_msat directional_info.fees
    let (total_fee_msat, prev_hop_use_estimate_fee_msat) ←
      if src_node_id ≠ state.payer_node_id then do
        let total_fee_msat := following_hops_fees_msat + hop_use_fee_msat
        let prev_hop_use_estimate_fee_msat ←
          compute_fees (total_fee_msat + amount_to_transfer_over_msat)
            old_entry.src_lowest_inbound_fees
        some (total_fee_msat + prev_hop_use_estimate_fee_msat, prev_hop_use_estimate_fee_msat)
      else
        some (following_hops_fees_msat, 0)
    let new_graph_node : RouteGraphNode :=
      { pubkey := src_node_id
        lowest_fee_to_peer_through_node := total_fee_msat
        lowest_fee_to_node := following_hops_fees_msat + hop_use_fee_msat }
    if total_fee_msat < old_entry.get_fee_weight_msat then
      let updated : PaymentHop :=
        { old_entry with
          following_hops_fees_msat := following_hops_fees_msat
          hop_use_fee_msat := hop_use_fee_msat
          prev_hop_use_estimate_fee_msat := prev_hop_use_estimate_fee_msat
          route_hop :=
            { pubkey := dest_node_id
              node_features := NodeFeatures.empty
              short_channel_id := scid
              channel_features := features
              fee_msat := 0
              cltv_expiry_delta := directional_info.cltv_expiry_delta }
          available_liquidity_msat := available_liquidity_msat
          channel_fees := directional_info.fees }
      some { state with
        targeted_edges := new_graph_node :: state.targeted_edges
        weighted_vertices := ainsert weighted_vertices src_node_id updated
        bookkeeped_channels_liquidity_available_msat := book }
    else
      some { state with
        weighted_vertices
        bookkeeped_channels_liquidity_available_msat := book }
  else
    some { state with bookkeeped_channels_liquidity_available_msat := book }

/-- Embedding of `RoutingState::select_weighted_vertice_to_target_edge`:
scan every channel incident to `node`, skipping unknown-feature channels and
disabled or suppressed directional edges, and relax the corresponding source
vertex.  `first_hops_given` stands for `first_hops.is_some()`. -/
def RoutingState.select_weighted_vertice_to_target_edge (state : RoutingState)
    (node : NodeInfo) (node_id : PubKey) (fee_to_target_msat : Nat)
    (first_hops_given : Bool) (network : NetworkGraph) : Option RoutingState := do
  let features :=
    match node.announcement_info with
    | some node_info => node_info.features
    | none => NodeFeatures.empty
  if features.requires_unknown_bits then
    some state
  else
    node.channels.foldlM
      (fun st chan_id => do
        match alookup network.get_channels chan_id with
        | none => none
        | some chan =>
          if chan.features.requires_unknown_bits then
            some st
          else if chan.node_one = node_id then
            if !first_hops_given || decide (chan.node_two ≠ st.payer_node_id) then
              match chan.two_to_one with
              | some two_to_one =>
                if two_to_one.enabled then
                  st.add_vertice chan_id chan.node_two chan.node_one two_to_one
                    chan.capacity_sats chan.features fee_to_target_msat network
                else some st
              | none => some st
            else some st
          else
            if !first_hops_given || decide (chan.node_one ≠ st.payer_node_id) then
              match chan.one_to_two with
              | some one_to_two =>
                if one_to_two.enabled then
                  st.add_vertice chan_id chan.node_one chan.node_two one_to_two
                    chan.capacity_sats chan.features fee_to_target_msat network
                else some st
              | none => some st
            else some st)
      state

/-- Router error kinds (`LightningError`, identified by message). -/
inductive LightningErr where
  | cannot_route_to_self
  | value_too_high
  | no_outbound_routes
  | no_path_found
  | insufficient_route
deriving DecidableEq, Repr

/-- Modelled from the spec: `MAX_VALUE_MSAT` from `ln/msgs.rs` (not in this
source tree), 21 million BTC in millisatoshis. -/
def MAX_VALUE_MSAT : Nat := 21000000 * 100000000 * 1000

/-- `ROUTE_CAPACITY_PROVISION_FACTOR` (source line 533). -/
def ROUTE_CAPACITY_PROVISION_FACTOR : Nat := 4

/-- Process the caller-provided first hops (source lines 541-562): abort on a
missing short channel id, return a one-hop route immediately when a first hop
already lands on the payee, otherwise collect the targets map. -/
def build_first_hop_targets (payee : PubKey) (final_value_msat final_cltv : Nat) :
    List ChannelDetails → List (PubKey × (Nat × InitFeatures)) →
    Option (Route ⊕ List (PubKey × (Nat × InitFeatures)))
  | [], first_hop_targets => some (.inr first_hop_targets)
  | chan :: rest, first_hop_targets =>
    match chan.short_channel_id with
    | none => none
    | some short_channel_id =>
      if chan.remote_network_id = payee then
        some (.inl { paths := [[{
          pubkey := chan.remote_network_id
          node_features := chan.counterparty_features.to_context_node
          short_channel_id := short_channel_id
          channel_features := chan.counterparty_features.to_context_channel
          fee_msat := final_value_msat
          cltv_expiry_delta := final_cltv }]] })
      else
        build_first_hop_targets payee final_value_msat final_cltv rest
          (ainsert first_hop_targets chan.remote_network_id
            (short_channel_id, chan.counterparty_features))

/-- One iteration's seeding (source lines 570-618): clear the heap and the
vertex map, seed the payee's inbound edges (and its first-hop override), then
inject the last-hop route hints. -/
def seed_targets (state : RoutingState) (our_node_id payee : PubKey)
    (first_hops_given : Bool)
    (first_hop_targets : List (PubKey × (Nat × InitFeatures)))
    (last_hops : List RouteHint) (network : NetworkGraph) : Option RoutingState := do
  let state := { state with targeted_edges := [], weighted_vertices := [] }
  let state ←
    match alookup network.get_nodes payee with
    | none => some state
    | some node => do
      let state ←
        if first_hops_given then
          match alookup first_hop_targets payee with
          | some (first_hop, features) =>
            state.add_vertice first_hop our_node_id payee DirectionalChannelInfo.default
              none features.to_context_channel 0 network
          | none => some state
        else some state
      state.select_weighted_vertice_to_target_edge node payee 0 first_hops_given network
  last_hops.foldlM
    (fun st hop => do
      if !first_hops_given || decide (hop.src_node_id ≠ our_node_id) then
        if (alookup network.get_nodes hop.src_node_id).isSome then
          let st ←
            if first_hops_given then
              match alookup first_hop_targets hop.src_node_id with
              | some (first_hop, features) =>
                st.add_vertice first_hop our_node_id hop.src_node_id
                  DirectionalChannelInfo.default none features.to_context_channel 0 network
              | none => some st
            else some st
          let from_route_hint : DirectionalChannelInfo :=
            { last_update := 0
              enabled := false
              cltv_expiry_delta := hop.cltv_expiry_delta
              htlc_minimum_msat := hop.htlc_minimum_msat
              htlc_maximum_msat := hop.htlc_maximum_msat
              fees := hop.fees }
          st.add_vertice hop.short_channel_id hop.src_node_id payee from_route_hint none
            ChannelFeatures.empty 0 network
        else some st
      else some st)
    state

/-- Fill the node features of the hop under construction (source lines
636-650); `none` models the `assert!` abort when a non-payee hop's node is
unknown to the graph. -/
def fill_features (h : PaymentHop) (payee : PubKey)
    (first_hop_targets : List (PubKey × (Nat × InitFeatures)))
    (network : NetworkGraph) : Option PaymentHop :=
  match alookup first_hop_targets h.route_hop.pubkey with
  | some (_, features) =>
    some { h with route_hop := { h.route_hop with node_features := features.to_context_node } }
  | none =>
    match alookup network.get_nodes h.route_hop.pubkey with
    | some node =>
      match node.announcement_info with
      | some node_info =>
        some { h with route_hop := { h.route_hop with node_features := node_info.features } }
      | none =>
        some { h with route_hop := { h.route_hop with node_features := NodeFeatures.empty } }
    | none =>
      if h.route_hop.pubkey = payee then some h else none

/-- Outcome of the hop-chain walk (source lines 635-678). -/
inductive ReconOut where
  | done (wv : List (PubKey × PaymentHop)) (rev_hops : List PaymentHop) (bottleneck : Nat)
  | stop

/-- Walk the parent chain from the payer's entry toward the payee
(source lines 635-678), carrying the ordered hops in reverse (head = most
recent).  `ReconOut.stop` is the `break (path collection)` on an unreachable
vertex; `none` is fuel exhaustion or an abort. -/
def reconstruct_loop (payee : PubKey)
    (first_hop_targets : List (PubKey × (Nat × InitFeatures))) (network : NetworkGraph) :
    Nat → List (PubKey × PaymentHop) → List PaymentHop → PaymentHop → Nat → Option ReconOut
  | 0, _, _, _, _ => none
  | _, _, [], _, _ => none
  | fuel + 1, wv, last :: rest, new_entry, path_bottleneck => do
    let last ← fill_features last payee first_hop_targets network
    let path_bottleneck :=
      if new_entry.following_hops_fees_msat < new_entry.available_liquidity_msat then
        min path_bottleneck
          (new_entry.available_liquidity_msat - new_entry.following_hops_fees_msat)
      else
        min path_bottleneck (new_entry.available_liquidity_msat / 10)
    if last.route_hop.pubkey = payee then
      some (.done wv (last :: rest) path_bottleneck)
    else
      match aremove wv last.route_hop.pubkey with
      | none => some .stop
      | some (next_entry, wv) =>
        let last := { last with route_hop := { last.route_hop with
          fee_msat := next_entry.hop_use_fee_msat
          cltv_expiry_delta := next_entry.route_hop.cltv_expiry_delta } }
        reconstruct_loop payee first_hop_targets network fuel wv
          (next_entry :: last :: rest) next_entry path_bottleneck

/-- Set the last hop's `fee_msat` and `cltv_expiry_delta` (source lines
679-680). -/
def set_last_fee_cltv (fee cltv : Nat) : List PaymentHop → List PaymentHop
  | [] => []
  | [h] => [{ h with route_hop := { h.route_hop with fee_msat := fee, cltv_expiry_delta := cltv } }]
  | h :: h' :: t => h :: set_last_fee_cltv fee cltv (h' :: t)

/-- Outcome of the bookkeeping debit pass (source lines 690-696). -/
inductive DebitOut where
  | done (book : List (Nat × Nat))
  | stop (book : List (Nat × Nat))

/-- Debit each hop's channel by its fee paid; `DebitOut.stop` is the
`break (path construction)` when a channel's remaining liquidity would go
negative (the already performed debits persist, as in the source). -/
def debit_channels : List PaymentHop → List (Nat × Nat) → Option DebitOut
  | [], book => some (.done book)
  | payment_hop :: t, book =>
    match alookup book payment_hop.route_hop.short_channel_id with
    | none => none
    | some channel_liquidity_available_msat =>
      if channel_liquidity_available_msat < payment_hop.get_fee_paid_msat then
        some (.stop book)
      else
        debit_channels t
          (ainsert book payment_hop.route_hop.short_channel_id
            (channel_liquidity_available_msat - payment_hop.get_fee_paid_msat))

/-- Outcome of one run of the inner `while` loop (source lines 624-720). -/
inductive InnerOut where
  | pushed (state : RoutingState) (path : PaymentPath)
  | exhausted (state : RoutingState)
  | stop_all (state : RoutingState)

/-- Embedding of the inner `(path construction)` loop: pop heap entries,
reconstruct a path once the payer is popped, otherwise keep relaxing. -/
def path_construction_loop (our_node_id payee : PubKey)
    (final_value_msat final_cltv : Nat) (first_hops_given : Bool)
    (first_hop_targets : List (PubKey × (Nat × InitFeatures)))
    (network : NetworkGraph) : Nat → RoutingState → Option InnerOut
  | 0, _ => none
  | fuel + 1, state =>
    match heap_pop state.targeted_edges with
    | none => some (.exhausted state)
    | some (node, targeted_edges) =>
      let state := { state with targeted_edges := targeted_edges }
      if node.pubkey = our_node_id then
        match aremove state.weighted_vertices our_node_id with
        | none => none
        | some (new_entry, wv) => do
          let state := { state with weighted_vertices := wv }
          let path_bottleneck_msat := final_value_msat * 10
          match ← reconstruct_loop payee first_hop_targets network (fuel + 1)
              state.weighted_vertices [new_entry] new_entry path_bottleneck_msat with
          | .stop => some (.stop_all state)
          | .done wv rev_hops path_bottleneck_msat => do
            let state := { state with weighted_vertices := wv }
            let ordered_hops := set_last_fee_cltv final_value_msat final_cltv rev_hops.reverse
            let payment_path ←
              PaymentPath.update_value_and_recompute_fees ⟨ordered_hops⟩ path_bottleneck_msat
            match ← debit_channels payment_path.hops
                state.bookkeeped_channels_liquidity_available_msat with
            | .stop book =>
              some (.stop_all { state with
                bookkeeped_channels_liquidity_available_msat := book })
            | .done book =>
              some (.pushed
                { state with
                  bookkeeped_channels_liquidity_available_msat := book
                  already_collected_value_msat :=
                    state.already_collected_value_msat + payment_path.get_value_msat }
                payment_path)
      else do
        let state ←
          if first_hops_given then
            match alookup first_hop_targets node.pubkey with
            | some (first_hop, features) =>
              state.add_vertice first_hop our_node_id node.pubkey
                DirectionalChannelInfo.default none features.to_context_channel
                node.lowest_fee_to_node network
            | none => some state
          else some state
        let state ←
          match alookup network.get_nodes node.pubkey with
          | none => some state
          | some n =>
            state.select_weighted_vertice_to_target_edge n node.pubkey
              node.lowest_fee_to_node first_hops_given network
        path_construction_loop our_node_id payee final_value_msat final_cltv
          first_hops_given first_hop_targets network fuel state

/-- Embedding of the outer `(paths collection)` loop (source lines 567-729):
reseed, construct one path, stop when the recommended value is reached or no
new path was found. -/
def paths_collection_loop (our_node_id payee : PubKey)
    (final_value_msat final_cltv : Nat) (first_hops_given : Bool)
    (first_hop_targets : List (PubKey × (Nat × InitFeatures)))
    (last_hops : List RouteHint) (network : NetworkGraph) (inner_fuel : Nat) :
    Nat → RoutingState → List PaymentPath → Option (RoutingState × List PaymentPath)
  | 0, _, _ => none
  | fuel + 1, state, payment_paths => do
    let state ← seed_targets state our_node_id payee first_hops_given first_hop_targets
      last_hops network
    match ← path_construction_loop our_node_id payee final_value_msat final_cltv
        first_hops_given first_hop_targets network inner_fuel state with
    | .pushed state payment_path =>
      let payment_paths := payment_paths ++ [payment_path]
      if state.recommended_value_msat ≤ state.already_collected_value_msat then
        some (state, payment_paths)
      else
        paths_collection_loop our_node_id payee final_value_msat final_cltv
          first_hops_given first_hop_targets last_hops network inner_fuel fuel
          state payment_paths
    | .exhausted state => some (state, payment_paths)
    | .stop_all state => some (state, payment_paths)

/-- Stable insertion into a key-sorted list: the new element goes after every
element whose key does not exceed it, matching `sort_by_key`'s stability. -/
def insert_le_by {α : Type} (key : α → Nat) (x : α) : List α → List α
  | [] => [x]
  | y :: ys => if key y ≤ key x then y :: insert_le_by key x ys else x :: y :: ys

/-- Stable sort by a `Nat` key (`Vec::sort_by_key`). -/
def sort_by_key_stable {α : Type} (key : α → Nat) (l : List α) : List α :=
  l.foldr (insert_le_by key) []

/-- Embedding of the retain pass (source lines 770-785): walk the paths in
ascending value order, dropping every path whose value fits inside the
remaining overpayment while keeping at least one path. -/
def retain_drop : List PaymentPath → Nat → Nat → List PaymentPath × Nat
  | [], _, overpaid_value_msat => ([], overpaid_value_msat)
  | path :: rest, paths_left, overpaid_value_msat =>
    if paths_left = 1 then
      let (kept, overpaid) := retain_drop rest paths_left overpaid_value_msat
      (path :: kept, overpaid)
    else if path.get_value_msat ≤ overpaid_value_msat then
      retain_drop rest (paths_left - 1) (overpaid_value_msat - path.get_value_msat)
    else
      let (kept, overpaid) := retain_drop rest paths_left overpaid_value_msat
      (path :: kept, overpaid)

/-- Split off the last element of a list. -/
def split_last {α : Type} : List α → Option (List α × α)
  | [] => none
  | [x] => some ([], x)
  | x :: y :: t =>
    match split_last (y :: t) with
    | some (init, last) => some (x :: init, last)
    | none => none

/-- Embedding of the overpayment correction (source lines 766-799): sort by
value and drop small paths, then reduce the proportionally most expensive
path by the leftover overpayment.  `none` models the `assert!` abort, the
underflowing subtraction abort, and aborts inside the fee recomputation. -/
def drop_and_adjust (final_value_msat : Nat) (cur_route : List PaymentPath)
    (overpaid_value_msat : Nat) : Option (List PaymentPath) := do
  let cur_route := sort_by_key_stable PaymentPath.get_value_msat cur_route
  let (cur_route, overpaid_value_msat) :=
    retain_drop cur_route cur_route.length overpaid_value_msat
  if overpaid_value_msat = 0 then
    some cur_route
  else if cur_route.isEmpty then
    none
  else
    let cur_route := sort_by_key_stable
      (fun path => (path.hops.map (fun hop => hop.channel_fees.proportional_millionths)).sum)
      cur_route
    match split_last cur_route with
    | none => none
    | some (init, expensive_payment_path) => do
      let expensive_path_new_value_msat ←
        checked_sub expensive_payment_path.get_value_msat overpaid_value_msat
      let expensive ←
        expensive_payment_path.update_value_and_recompute_fees expensive_path_new_value_msat
      some (init ++ [expensive])

/-- Embedding of the route-drawing pass for one rotation (source lines
749-801): append paths until the aggregate reaches the target, then correct
the overpayment; if the rotation runs out first, keep whatever was collected
(the loop ends without the `break`). -/
def draw_route_loop (final_value_msat : Nat) :
    List PaymentPath → List PaymentPath → Nat → Option (List PaymentPath)
  | [], cur_route, _ => some cur_route
  | payment_path :: rest, cur_route, aggregate_route_value_msat =>
    let cur_route := cur_route ++ [payment_path]
    let aggregate_route_value_msat :=
      aggregate_route_value_msat + payment_path.get_value_msat
    if final_value_msat ≤ aggregate_route_value_msat then
      drop_and_adjust final_value_msat cur_route
        (aggregate_route_value_msat - final_value_msat)
    else
      draw_route_loop final_value_msat rest cur_route aggregate_route_value_msat

/-- Embedding of `get_route`.  The result is `none` on an abort or on fuel
exhaustion (`fuel` bounds both loops), `some (.error e)` on each of the
source's error returns, and `some (.ok route)` on success. -/
def get_route (fuel : Nat) (our_node_id : PubKey) (network : NetworkGraph)
    (payee : PubKey) (first_hops : Option (List ChannelDetails))
    (last_hops : List RouteHint) (final_value_msat final_cltv : Nat) :
    Option (Except LightningErr Route) := do
  if payee = our_node_id then
    some (.error .cannot_route_to_self)
  else if MAX_VALUE_MSAT < final_value_msat then
    some (.error .value_too_high)
  else
    let recommended_value_msat := final_value_msat * ROUTE_CAPACITY_PROVISION_FACTOR
    let first_hops_given := first_hops.isSome
    let targets ←
      match first_hops with
      | some hops => build_first_hop_targets payee final_value_msat final_cltv hops []
      | none => some (.inr [])
    match targets with
    | .inl route => some (.ok route)
    | .inr first_hop_targets =>
      if first_hops_given && first_hop_targets.isEmpty then
        some (.error .no_outbound_routes)
      else do
        let state : RoutingState :=
          { targeted_edges := []
            weighted_vertices := []
            payer_node_id := our_node_id
            bookkeeped_channels_liquidity_available_msat := []
            recommended_value_msat := recommended_value_msat
            already_collected_value_msat := 0 }
        let (state, payment_paths) ←
          paths_collection_loop our_node_id payee final_value_msat final_cltv
            first_hops_given first_hop_targets last_hops network fuel fuel state []
        if payment_paths.length = 0 then
          some (.error .no_path_found)
        else if state.already_collected_value_msat < final_value_msat then
          some (.error .insufficient_route)
        else do
          let payment_paths :=
            sort_by_key_stable PaymentPath.get_total_fee_paid_msat payment_paths
          let payment_paths :=
            if 50 < payment_paths.length then payment_paths.take 50 else payment_paths
          let drawn_routes ←
            (List.range payment_paths.length).mapM
              (fun i => draw_route_loop final_value_msat
                (payment_paths.drop i ++ payment_paths.take i) [] 0)
          let drawn_routes :=
            sort_by_key_stable
              (fun paths => (paths.map PaymentPath.get_total_fee_paid_msat).sum)
              drawn_routes
          match drawn_routes with
          | [] => none
          | best :: _ =>
            let selected_paths := best.map (fun payment_path =>
              payment_path.hops.map (fun payment_hop => payment_hop.route_hop))
            some (.ok { paths := selected_paths })

/-- Decidable equality of `Except` results, for evaluating the router on
concrete inputs. -/
instance {ε α : Type} [DecidableEq ε] [DecidableEq α] : DecidableEq (Except ε α) := fun x y =>
  match x, y with
  | .ok u, .ok v => if h : u = v then isTrue (by rw [h]) else isFalse (by simp [h])
  | .error u, .error v => if h : u = v then isTrue (by rw [h]) else isFalse (by simp [h])
  | .ok _, .error _ => isFalse (by simp)
  | .error _, .ok _ => isFalse (by simp)

/-- Sum over a route's paths of the last hop's `fee_msat` (the per-path value
delivered to the payee). -/
def route_last_hop_fees_sum (r : Route) : Nat :=
  (r.paths.map (fun p => (p.getLastD dummyPaymentHop.route_hop).fee_msat)).sum

/-- Directional info builder for concrete graphs. -/
def mkDirInfo (cltv : Nat) (hmax : Option Nat) (base ppm : Nat) : DirectionalChannelInfo :=
  { last_update := 0
    enabled := true
    cltv_expiry_delta := cltv
    htlc_minimum_msat := 0
    htlc_maximum_msat := hmax
    fees := { base_msat := base, proportional_millionths := ppm } }

/-- Channel builder for concrete graphs. -/
def mkChan (n1 : PubKey) (d12 : Option DirectionalChannelInfo) (n2 : PubKey)
    (d21 : Option DirectionalChannelInfo) : ChannelInfo :=
  { features := ⟨false⟩
    node_one := n1
    one_to_two := d12
    node_two := n2
    two_to_one := d21
    capacity_sats := none }

/-- Node builder for concrete graphs. -/
def mkNode (cs : List Nat) : NodeInfo :=
  { channels := cs
    lowest_inbound_channel_fees := some ⟨0, 0⟩
    announcement_info := none }

/-- Liquidity of the last-hop hint channel of each of the 51 paths in the
counterexample network: path `j` (0-based) qualifies under the 5% rule
exactly at collection round `j + 1`. -/
def cexAs : List Nat := [20000, 19000, 18799, 18608, 18428, 18256, 18092, 17937, 17790, 17650, 17517, 17390, 17270, 17156, 17048, 16945, 16847, 16754, 16666, 16582, 16502, 16427, 16355, 16286, 16222, 16160, 16101, 16046, 15993, 15943, 15895, 15850, 15807, 15764, 15721, 15678, 15635, 15592, 15549, 15506, 15463, 15420, 15377, 15334, 15291, 15248, 15205, 15162, 15119, 15076, 15033]

/-- Liquidity of the first-hop channel of each counterexample path, sized so
the path's bottleneck (the value it transfers) stays small against the hint
fee. -/
def cexA1s : List Nat := [39800, 22821, 22421, 22040, 21682, 21340, 21014, 20705, 20413, 20134, 19869, 19617, 19378, 19151, 18936, 18731, 18536, 18351, 18176, 18009, 17849, 17700, 17557, 17420, 17292, 17169, 17051, 16942, 16837, 16737, 16642, 16552, 16508, 16466, 16423, 16381, 16338, 16296, 16253, 16210, 16168, 16125, 16083, 16040, 15998, 15955, 15912, 15870, 15827, 15785, 15742]

/-- Counterexample network for C1: the payer (key 1000) reaches 51 middle
nodes 1..51 over one channel each; the payee (key 0) is reachable only via
last-hop route hints.  The hint liquidities make exactly one new path usable
per collection round, so 51 paths are collected; their stale first-hop fee
keys make the first (largest-value) path sort most expensive. -/
def cexNetwork : NetworkGraph :=
  { channels := (List.range 51).map (fun j =>
      (101 + j, mkChan 1000 (some (mkDirInfo 5 (some (cexA1s.getD j 0)) 0 0)) (j + 1) none))
    nodes := ((List.range 51).map (fun j => ((j + 1 : PubKey), mkNode [101 + j]))) ++
      [(1000, mkNode ((List.range 51).map (fun j => 101 + j)))] }

/-- Hint builder: a last-hop channel into the payee charging a 99% (990000
ppm) proportional fee. -/
def mkHint (src scid amax : Nat) : RouteHint :=
  { src_node_id := src
    short_channel_id := scid
    fees := { base_msat := 0, proportional_millionths := 990000 }
    cltv_expiry_delta := 7
    htlc_minimum_msat := 0
    htlc_maximum_msat := some amax }

/-- The 51 last-hop hints of the counterexample. -/
def cexLastHops : List RouteHint :=
  (List.range 51).map (fun j => mkHint (j + 1) (201 + j) (cexAs.getD j 0))

/-- A payment path ending at the payee with the final cltv: the invariant the
router maintains on every constructed path. -/
def GoodPath (payee : PubKey) (final_cltv : Nat) (p : PaymentPath) : Prop :=
  p.hops ≠ [] ∧ (p.hops.getLastD dummyPaymentHop).route_hop.pubkey = payee ∧
    (p.hops.getLastD dummyPaymentHop).route_hop.cltv_expiry_delta = final_cltv

/-- Total value transferred by a list of payment paths. -/
def sumVals (l : List PaymentPath) : Nat :=
  (l.map PaymentPath.get_value_msat).sum

/-- A first-hop channel that lands directly on the payee, for exercising the
early-return branch of `get_route`. -/
def exFirstHop : ChannelDetails :=
  { short_channel_id := some 42
    remote_network_id := 2
    counterparty_features := ⟨false⟩ }

/-- The one-hop route `get_route` returns for `exFirstHop`. -/
def exTrivialHop : RouteHop :=
  { pubkey := 2
    node_features := ⟨false⟩
    short_channel_id := 42
    channel_features := ⟨false⟩
    fee_msat := 100
    cltv_expiry_delta := 9 }

/-- The route consisting of the single path `[exTrivialHop]`. -/
def exTrivialRoute : Route := { paths := [[exTrivialHop]] }

/-!
## Theorems

Lemmas and claim theorems over the embeddings above, in the order of the
sections: fee-bump engine, package templates, onchain requests,
serialization, router.
-/

/-- Returned fees of `subtract_high_prio_fee` are strictly below the input sum. -/
theorem subtract_high_prio_fee_lt (a w : Nat) (est : FeeEstimator) (nf r : Nat)
    (h : subtract_high_prio_fee a w est = some (nf, r)) : nf < a := by
  unfold subtract_high_prio_fee at h
  dsimp only at h
  split_ifs at h with h1 h2 h3
  all_goals
    first
    | exact Option.noConfusion h
    | (simp only [Option.some.injEq, Prod.mk.injEq] at h; omega)

example : compute_output_value 1000 1000000 0 exEstimator 4000 = some (995000, 5000) := by decide

example : feerate_bump 1000 1000000 5000 exEstimator 4000 = some (9000, 9000) := by decide

example : compute_output_value 750 1500 2000 flatEstimator 4000 = none := by decide

/-- C2: for every predicted weight, input amount, previous feerate f > 0 and
minimum-relay constant, whenever `feerate_bump` returns a fee it is at least
`previous_fee + min_relay_fee` where `previous_fee = f * w / 1000` and
`min_relay_fee = MIN_RELAY_FEE_SAT_PER_1000_WEIGHT * w / 1000` (BIP-125 rule
4); `compute_output_value` bases its bump result on exactly this fee. -/
theorem feerate_bump_bip125_floor (w a f mr new_fee feerate : Nat) (est : FeeEstimator)
    (_hf : 0 < f)
    (h : feerate_bump w a f est mr = some (new_fee, feerate)) :
    f * w / 1000 + mr * w / 1000 ≤ new_fee := by
  unfold feerate_bump at h
  cases hc : feerate_bump_candidate w a f est with
  | none => rw [hc] at h; exact Option.noConfusion h
  | some cand =>
    rw [hc] at h
    dsimp only at h
    split_ifs at h
    all_goals
      first
      | exact Option.noConfusion h
      | (simp only [Option.some.injEq, Prod.mk.injEq] at h; omega)

/-- Witness for C2 at the spec's benchmark input: weight 1000, input 1000000,
previous feerate 5000, HighPriority estimate 5000, minimum relay constant
4000; the bumped fee 9000 meets the floor 5000 + 4000. -/
theorem feerate_bump_bip125_floor_witness :
    5000 * 1000 / 1000 + 4000 * 1000 / 1000 ≤ 9000 :=
  feerate_bump_bip125_floor 1000 1000000 5000 4000 9000 9000 exEstimator
    (by decide) (by decide)

/-- C3 (counterexample): a bump attempt whose candidate fee
(`previous_feerate * weight / 750` = 2000) is at least the input amount (1500)
makes `compute_output_value` return `none` (the broadcast is suppressed),
not `Some((0, feerate))` as the claim states. -/
theorem compute_output_value_burn_counterexample :
    1500 ≤ 2000 * 750 / 750 ∧
    feerate_bump_candidate 750 1500 2000 flatEstimator = none ∧
    compute_output_value 750 1500 2000 flatEstimator 4000 = none := by
  refine ⟨by decide, by decide, by decide⟩

/-- C3 (amended): whenever `feerate_bump` succeeds and the fee it returns
(after the BIP-125 floor) is at least `input_amounts`, `compute_output_value`
returns `Some((0, feerate))`, burning the whole claimable amount to fees; when
the pre-floor candidate fee already reaches `input_amounts`, `feerate_bump`
returns `none` instead and the broadcast is suppressed. -/
theorem compute_output_value_burn (w a f mr nf r : Nat) (est : FeeEstimator)
    (hf : f ≠ 0)
    (h : feerate_bump w a f est mr = some (nf, r)) (hge : a ≤ nf) :
    compute_output_value w a f est mr = some (0, r) := by
  unfold compute_output_value
  rw [if_pos hf, h]
  dsimp only
  split_ifs with h1
  · rfl
  · have : nf = a := by omega
    simp [this]

/-- Witness for C3 (amended): weight 1000, input 1400, previous feerate 1000
against a HighPriority estimate of 1000 (so the 25% branch runs: candidate
1333 < 1400), minimum relay constant 1000; the floored fee 2000 exceeds the
input, and the whole amount burns. -/
theorem compute_output_value_burn_witness :
    compute_output_value 1000 1400 1000 flatEstimator 1000 = some (0, 2000) :=
  compute_output_value_burn 1000 1400 1000 1000 2000 2000 flatEstimator
    (by decide) (by decide) (by decide)

/-- C8: on a first attempt (`previous_feerate = 0`) `compute_output_value`
walks the estimator tiers HighPriority, Normal, Background top-down, selects
the first tier whose fee `feerate * weight / 1000` is strictly below
`input_amounts` and returns `(input_amounts - fee, feerate)`; it returns
`none` exactly when the walk falls through all three tiers, i.e. when even
the Background tier's fee reaches `input_amounts`. -/
theorem compute_output_value_first_attempt_eq (w a mr : Nat) (est : FeeEstimator) :
    compute_output_value w a 0 est mr =
      if est.get_est_sat_per_1000_weight .HighPriority * w / 1000 < a then
        some (a - est.get_est_sat_per_1000_weight .HighPriority * w / 1000,
              est.get_est_sat_per_1000_weight .HighPriority)
      else if est.get_est_sat_per_1000_weight .Normal * w / 1000 < a then
        some (a - est.get_est_sat_per_1000_weight .Normal * w / 1000,
              est.get_est_sat_per_1000_weight .Normal)
      else if est.get_est_sat_per_1000_weight .Background * w / 1000 < a then
        some (a - est.get_est_sat_per_1000_weight .Background * w / 1000,
              est.get_est_sat_per_1000_weight .Background)
      else none := by
  unfold compute_output_value subtract_high_prio_fee
  dsimp only
  split_ifs <;> first | rfl | omega

/-- C10: whenever `compute_output_value` returns `Some((output_value, feerate))`
the output value is at most `input_amounts`, and the internal subtractions
never underflow: the variant computing them with `checked_sub` agrees with the
source function on all inputs. -/
theorem compute_output_value_le_input (w a f mr : Nat) (est : FeeEstimator) :
    compute_output_value_checked w a f est mr = compute_output_value w a f est mr ∧
    ∀ v r, compute_output_value w a f est mr = some (v, r) → v ≤ a := by
  unfold compute_output_value compute_output_value_checked
  split_ifs with h0
  · cases hb : feerate_bump w a f est mr with
    | none => simp
    | some p =>
      obtain ⟨nf, r⟩ := p
      dsimp only
      split_ifs with h1
      · simp
      · have hle : nf ≤ a := by omega
        unfold checked_sub
        rw [if_pos hle]
        constructor
        · rfl
        · intro v r h
          simp only [Option.some.injEq, Prod.mk.injEq] at h
          omega
  · cases hs : subtract_high_prio_fee a w est with
    | none => simp
    | some p =>
      obtain ⟨nf, r⟩ := p
      have hlt : nf < a := subtract_high_prio_fee_lt a w est nf r hs
      unfold checked_sub
      dsimp only
      rw [if_pos (Nat.le_of_lt hlt)]
      constructor
      · rfl
      · intro v r h
        simp only [Option.some.injEq, Prod.mk.injEq] at h
        omega

/-- Witness for C10 at weight 1000, input 1000000, first attempt with the
sample estimator: the returned output value 995000 is at most the input. -/
theorem compute_output_value_le_input_witness : (995000 : Nat) ≤ 1000000 :=
  (compute_output_value_le_input 1000 1000000 0 4000 exEstimator).2 995000 5000 (by decide)

/-- Keys after an `ainsert` are the old keys plus the inserted key. -/
theorem ainsert_map_fst_mem {α : Type} [DecidableEq α] {β : Type}
    (l : List (α × β)) (k : α) (v : β) (m : α) :
    m ∈ (ainsert l k v).map Prod.fst ↔ m ∈ l.map Prod.fst ∨ m = k := by
  induction l with
  | nil => simp [ainsert]
  | cons h t ih =>
    obtain ⟨k0, v0⟩ := h
    by_cases hk : k0 = k
    · subst hk
      simp [ainsert]
      tauto
    · simp only [ainsert, if_neg hk, List.map_cons, List.mem_cons, ih]
      tauto

/-- Keys after draining `other` into `base` are the union of both key sets. -/
theorem drain_into_map_fst_mem {β : Type}
    (other base : List (BitcoinOutPoint × β)) (m : BitcoinOutPoint) :
    m ∈ (drain_into base other).map Prod.fst ↔
      m ∈ base.map Prod.fst ∨ m ∈ other.map Prod.fst := by
  induction other generalizing base with
  | nil => simp [drain_into]
  | cons h t ih =>
    simp only [drain_into, List.foldl_cons] at *
    rw [ih (ainsert base h.1 h.2)]
    simp only [ainsert_map_fst_mem, List.map_cons, List.mem_cons]
    tauto

/-- Inserting an absent key appends the binding at the end. -/
theorem ainsert_not_mem_append {α : Type} [DecidableEq α] {β : Type}
    (l : List (α × β)) (k : α) (v : β) (h : k ∉ l.map Prod.fst) :
    ainsert l k v = l ++ [(k, v)] := by
  induction l with
  | nil => rfl
  | cons h0 t ih =>
    obtain ⟨k0, v0⟩ := h0
    simp only [List.map_cons, List.mem_cons] at h
    push_neg at h
    simp only [ainsert, if_neg (fun he : k0 = k => h.1 he.symm), List.cons_append]
    rw [ih h.2]

/-- Draining a key-disjoint, duplicate-free map appends it wholesale. -/
theorem drain_into_disjoint_append {β : Type}
    (other base : List (BitcoinOutPoint × β))
    (hnd : (other.map Prod.fst).Nodup)
    (hdisj : ∀ k ∈ other.map Prod.fst, k ∉ base.map Prod.fst) :
    drain_into base other = base ++ other := by
  induction other generalizing base with
  | nil => simp [drain_into]
  | cons h t ih =>
    simp only [List.map_cons, List.nodup_cons] at hnd
    simp only [drain_into, List.foldl_cons] at *
    have habs : h.1 ∉ base.map Prod.fst := by
      apply hdisj
      simp
    rw [ainsert_not_mem_append base h.1 h.2 habs]
    have := ih (base ++ [(h.1, h.2)]) hnd.2 (by
      intro k hk
      simp only [List.map_append, List.mem_append, List.map_cons, List.map_nil,
        List.mem_singleton]
      push_neg
      constructor
      · exact hdisj k (by simp [hk])
      · intro he
        exact hnd.1 (he ▸ hk))
    rw [this]
    simp

/-- Folding an additive step equals the starting value plus the mapped sum. -/
theorem foldl_add_shift {γ : Type} (g : γ → Nat) (l : List γ) (s : Nat) :
    l.foldl (fun acc x => acc + g x) s = s + (l.map g).sum := by
  induction l generalizing s with
  | nil => simp
  | cons h t ih =>
    simp only [List.foldl_cons, List.map_cons, List.sum_cons, ih]
    omega

/-- C6 (amended): merging two Malleable* packages of the same variant makes
the outpoint set of the result the union of the two original outpoint sets;
and when the two packages claim disjoint outpoints the merged
`package_amounts` is the sum of the two original amounts.  (When the
outpoints overlap, `HashMap::insert` overwrites the receiver's entry, so the
amounts are not additive -- see the counterexample.) -/
theorem package_merge_union_amounts (P Q R : PackageTemplate)
    (h : P.package_merge Q = some R) :
    (∀ o, o ∈ R.outpoints ↔ o ∈ P.outpoints ∨ o ∈ Q.outpoints) ∧
    (Q.outpoints.Nodup → (∀ o ∈ Q.outpoints, o ∉ P.outpoints) →
      R.package_amounts = P.package_amounts + Q.package_amounts) := by
  cases P <;> cases Q <;>
    simp only [PackageTemplate.package_merge, Option.some.injEq,
      reduceCtorEq, false_implies, and_self] at h
  case MalleableJusticeTx.MalleableJusticeTx ps qs =>
    subst h
    refine ⟨fun o => ?_, fun hnd hdisj => ?_⟩
    · simpa [PackageTemplate.outpoints] using drain_into_map_fst_mem qs ps o
    · simp only [PackageTemplate.outpoints] at hnd hdisj
      simp only [PackageTemplate.package_amounts,
        drain_into_disjoint_append qs ps hnd hdisj, foldl_add_shift, List.map_append,
        List.sum_append, Nat.zero_add]
  case RemoteHTLCTx.RemoteHTLCTx ps qs =>
    subst h
    refine ⟨fun o => ?_, fun hnd hdisj => ?_⟩
    · simpa [PackageTemplate.outpoints] using drain_into_map_fst_mem qs ps o
    · simp only [PackageTemplate.outpoints] at hnd hdisj
      simp only [PackageTemplate.package_amounts,
        drain_into_disjoint_append qs ps hnd hdisj, foldl_add_shift, List.map_append,
        List.sum_append, Nat.zero_add]

/-- C6 (counterexample): merging two MalleableJusticeTx packages that claim
the same outpoint (amounts 5 and 7) produces a package whose amount is 7, not
5 + 7 = 12: the drained entry overwrites the receiver's, so the claim's
unconditional amount additivity fails. -/
theorem package_merge_amounts_counterexample :
    (PackageTemplate.MalleableJusticeTx [(⟨9, 0⟩, exRevoked5)]).package_merge
        (.MalleableJusticeTx [(⟨9, 0⟩, exRevoked7)]) =
      some (.MalleableJusticeTx [(⟨9, 0⟩, exRevoked7)]) ∧
    (PackageTemplate.MalleableJusticeTx [(⟨9, 0⟩, exRevoked7)]).package_amounts = 7 ∧
    (PackageTemplate.MalleableJusticeTx [(⟨9, 0⟩, exRevoked5)]).package_amounts +
      (PackageTemplate.MalleableJusticeTx [(⟨9, 0⟩, exRevoked7)]).package_amounts = 12 := by
  refine ⟨by decide, by decide, by decide⟩

/-- Witness for C6 at disjoint outpoints: merging `{(9,0) ↦ 5 sat}` with
`{(8,1) ↦ 7 sat}` yields outpoint set `{(9,0), (8,1)}` and amount 12. -/
theorem package_merge_union_amounts_witness :
    ((⟨9, 0⟩ : BitcoinOutPoint) ∈
        (PackageTemplate.MalleableJusticeTx [(⟨9, 0⟩, exRevoked5), (⟨8, 1⟩, exRevoked7)]).outpoints ↔
      (⟨9, 0⟩ : BitcoinOutPoint) ∈
          (PackageTemplate.MalleableJusticeTx [(⟨9, 0⟩, exRevoked5)]).outpoints ∨
        (⟨9, 0⟩ : BitcoinOutPoint) ∈
          (PackageTemplate.MalleableJusticeTx [(⟨8, 1⟩, exRevoked7)]).outpoints) ∧
    (PackageTemplate.MalleableJusticeTx
        [(⟨9, 0⟩, exRevoked5), (⟨8, 1⟩, exRevoked7)]).package_amounts = 5 + 7 := by
  have h := package_merge_union_amounts
    (.MalleableJusticeTx [(⟨9, 0⟩, exRevoked5)])
    (.MalleableJusticeTx [(⟨8, 1⟩, exRevoked7)])
    (.MalleableJusticeTx [(⟨9, 0⟩, exRevoked5), (⟨8, 1⟩, exRevoked7)])
    (by decide)
  exact ⟨h.1 ⟨9, 0⟩, h.2 (by decide) (by decide)⟩

/-- C5 (counterexample): splitting a Local* package does not abort: on a
concrete LocalHTLCTx package `package_split` returns the untouched package
and `None`, a normal value (`some` in the abort-channel model). -/
theorem package_split_local_counterexample :
    (PackageTemplate.LocalHTLCTx (⟨7, 0⟩, ⟨none, 3000⟩)).package_split ⟨7, 0⟩ =
      some (.LocalHTLCTx (⟨7, 0⟩, ⟨none, 3000⟩), none) := by
  decide

/-- C5 (amended): on the Local* variants `package_split` deliberately returns
`None` (leaving the package unchanged) instead of signalling a programmer
error; the source comments that competing claims may legitimately probe a
non-malleable package, so it must not abort. -/
theorem package_split_local_returns_none :
    (∀ (input : BitcoinOutPoint × LocalHTLCOutput) (outp : BitcoinOutPoint),
      (PackageTemplate.LocalHTLCTx input).package_split outp =
        some (.LocalHTLCTx input, none)) ∧
    (∀ (input : BitcoinOutPoint × LocalFundingOutput) (outp : BitcoinOutPoint),
      (PackageTemplate.LocalCommitmentTx input).package_split outp =
        some (.LocalCommitmentTx input, none)) :=
  ⟨fun _ _ => rfl, fun _ _ => rfl⟩

/-- C9: merging into an uninitialized request (`absolute_timelock = 2^32 - 1`)
copies `height_original`, `content` and `absolute_timelock` from the other
request wholesale (all other fields keep the receiver's values); otherwise the
merge aborts unless both requests share `height_original`, adopts the lower
of the two timelocks, and merges the contents via `package_merge`. -/
theorem request_merge_spec (A B : OnchainRequest) :
    (A.absolute_timelock = u32Max →
      A.request_merge B = some { A with
        height_original := B.height_original
        content := B.content
        absolute_timelock := B.absolute_timelock }) ∧
    (A.absolute_timelock ≠ u32Max →
      (A.height_original ≠ B.height_original → A.request_merge B = none) ∧
      (A.height_original = B.height_original →
        A.request_merge B =
          match A.content.package_merge B.content with
          | some c => some { A with
              absolute_timelock := min A.absolute_timelock B.absolute_timelock
              content := c }
          | none => none)) := by
  refine ⟨fun hinit => ?_, fun hninit => ⟨fun hne => ?_, fun heq => ?_⟩⟩
  · unfold OnchainRequest.request_merge
    rw [if_pos hinit]
  · unfold OnchainRequest.request_merge
    rw [if_neg hninit, if_neg hne]
  · unfold OnchainRequest.request_merge
    rw [if_neg hninit, if_pos heq]
    dsimp only
    by_cases hlt : A.absolute_timelock > B.absolute_timelock
    · rw [if_pos hlt]
      have : min A.absolute_timelock B.absolute_timelock = B.absolute_timelock :=
        Nat.min_eq_right (Nat.le_of_lt hlt)
      rw [this]
    · rw [if_neg hlt]
      have : min A.absolute_timelock B.absolute_timelock = A.absolute_timelock :=
        Nat.min_eq_left (by omega)
      rw [this]

theorem natToBytes_length (w n : Nat) : (natToBytes w n).length = w := by
  induction w generalizing n with
  | zero => rfl
  | succ w ih => simp [natToBytes, ih]

theorem bytesToNat_natToBytes (w n : Nat) (h : n < 256 ^ w) :
    bytesToNat (natToBytes w n) = n := by
  induction w generalizing n with
  | zero => simp at h; simp [natToBytes, bytesToNat, h]
  | succ w ih =>
    have hdiv : n / 256 < 256 ^ w := by
      rw [Nat.div_lt_iff_lt_mul (by norm_num)]
      calc n < 256 ^ (w + 1) := h
        _ = 256 ^ w * 256 := by ring
    simp only [natToBytes, bytesToNat, List.foldl_append, List.foldl_cons, List.foldl_nil]
    have := ih (n / 256) hdiv
    simp only [bytesToNat] at this
    rw [this]
    omega

theorem read_be_append (w n : Nat) (rest : List Nat) (h : n < 256 ^ w) :
    read_be w (natToBytes w n ++ rest) = .ok (n, rest) := by
  unfold read_be
  rw [if_pos (by simp [natToBytes_length])]
  rw [List.take_left' (natToBytes_length w n), List.drop_left' (natToBytes_length w n),
    bytesToNat_natToBytes w n h]

theorem read_raw_append (l rest : List Nat) :
    read_raw l.length (l ++ rest) = .ok (l, rest) := by
  unfold read_raw
  rw [if_pos (by simp)]
  rw [List.take_left, List.drop_left]

theorem except_bind_ok {ε α β : Type} (a : α) (f : α → Except ε β) :
    (Except.ok a : Except ε α) >>= f = f a := rfl

theorem read_be_one_cons (b : Nat) (rest : List Nat) : read_be 1 (b :: rest) = .ok (b, rest) := by
  unfold read_be
  rw [if_pos (by simp)]
  simp [bytesToNat]

theorem InputDescriptors_read_write (d : InputDescriptors) (rest : List Nat) :
    InputDescriptors.read (d.write ++ rest) = .ok (d, rest) := by
  cases d <;>
    simp only [InputDescriptors.write, InputDescriptors.read, List.singleton_append,
      read_be_one_cons, except_bind_ok]

theorem read_option_write {β : Type} {P : β → Prop}
    (read_val : List Nat → Except DecodeError (β × List Nat)) (write_val : β → List Nat)
    (hrt : ∀ v rest, P v → read_val (write_val v ++ rest) = .ok (v, rest))
    (o : Option β) (ho : ∀ v ∈ o, P v) (rest : List Nat) :
    read_option read_val (write_option write_val o ++ rest) = .ok (o, rest) := by
  cases o with
  | none =>
    simp only [write_option, read_option, List.singleton_append, read_be_one_cons,
      except_bind_ok]
  | some v =>
    have hv : P v := ho v rfl
    simp only [write_option, read_option, List.cons_append, read_be_one_cons,
      except_bind_ok]
    simp only [hrt v rest hv, except_bind_ok]

theorem HTLCOutputInCommitment_read_write (h : HTLCOutputInCommitment) (rest : List Nat)
    (hw : h.WF) : HTLCOutputInCommitment.read (h.write ++ rest) = .ok (h, rest) := by
  obtain ⟨h1, h2⟩ := hw
  simp only [HTLCOutputInCommitment.write, HTLCOutputInCommitment.read, List.append_assoc]
  rw [read_be_append _ _ _ h1, except_bind_ok, read_be_append _ _ _ h2, except_bind_ok]

theorem BitcoinOutPoint_read_write (o : BitcoinOutPoint) (rest : List Nat)
    (hw : o.WF) : BitcoinOutPoint.read (o.write ++ rest) = .ok (o, rest) := by
  obtain ⟨h1, h2⟩ := hw
  simp only [BitcoinOutPoint.write, BitcoinOutPoint.read, List.append_assoc]
  rw [read_be_append _ _ _ h1, except_bind_ok, read_be_append _ _ _ h2, except_bind_ok]

theorem RevokedOutput_read_write (r : RevokedOutput) (rest : List Nat)
    (hw : r.WF) : RevokedOutput.read (r.write ++ rest) = .ok (r, rest) := by
  obtain ⟨h1, h2, h3, h4, h5, h6, h7⟩ := hw
  simp only [RevokedOutput.write, RevokedOutput.read, List.append_assoc]
  rw [read_be_append _ _ _ h1, except_bind_ok, read_be_append _ _ _ h2, except_bind_ok,
    read_be_append _ _ _ h3, except_bind_ok, read_be_append _ _ _ h4, except_bind_ok,
    InputDescriptors_read_write, except_bind_ok, read_be_append _ _ _ h5, except_bind_ok,
    read_option_write HTLCOutputInCommitment.read HTLCOutputInCommitment.write
      HTLCOutputInCommitment_read_write r.htlc h6, except_bind_ok,
    read_be_append _ _ _ h7, except_bind_ok]

theorem RemoteHTLCOutput_read_write (r : RemoteHTLCOutput) (rest : List Nat)
    (hw : r.WF) : RemoteHTLCOutput.read (r.write ++ rest) = .ok (r, rest) := by
  obtain ⟨h1, h2, h3, h4, h5⟩ := hw
  simp only [RemoteHTLCOutput.write, RemoteHTLCOutput.read, List.append_assoc]
  rw [read_be_append _ _ _ h1, except_bind_ok, read_be_append _ _ _ h2, except_bind_ok,
    read_be_append _ _ _ h3, except_bind_ok,
    read_option_write (read_be 32) (natToBytes 32)
      (fun v rest hv => read_be_append 32 v rest hv) r.preimage h4, except_bind_ok,
    HTLCOutputInCommitment_read_write r.htlc rest h5, except_bind_ok]

theorem LocalHTLCOutput_read_write (l : LocalHTLCOutput) (rest : List Nat)
    (hw : l.WF) : LocalHTLCOutput.read (l.write ++ rest) = .ok (l, rest) := by
  obtain ⟨h1, h2⟩ := hw
  simp only [LocalHTLCOutput.write, LocalHTLCOutput.read, List.append_assoc]
  rw [read_option_write (read_be 32) (natToBytes 32)
      (fun v rest hv => read_be_append 32 v rest hv) l.preimage h1, except_bind_ok,
    read_be_append _ _ _ h2, except_bind_ok]

theorem LocalFundingOutput_read_write (l : LocalFundingOutput) (rest : List Nat)
    (hw : l.WF) : LocalFundingOutput.read (l.write ++ rest) = .ok (l, rest) := by
  obtain ⟨h1, _h2⟩ := hw
  simp only [LocalFundingOutput.write, LocalFundingOutput.read, List.append_assoc]
  rw [read_be_append _ _ _ h1, except_bind_ok, read_raw_append, except_bind_ok]

theorem read_entries_write_entries {β : Type} {WFv : β → Prop}
    (read_val : List Nat → Except DecodeError (β × List Nat)) (write_val : β → List Nat)
    (hrt : ∀ v rest, WFv v → read_val (write_val v ++ rest) = .ok (v, rest))
    (l : List (BitcoinOutPoint × β)) (acc : List (BitcoinOutPoint × β)) (rest : List Nat)
    (hwf : ∀ kv ∈ l, kv.1.WF ∧ WFv kv.2)
    (hnd : (l.map Prod.fst).Nodup)
    (hdisj : ∀ k ∈ l.map Prod.fst, k ∉ acc.map Prod.fst) :
    read_entries read_val l.length acc (write_entries write_val l ++ rest) =
      .ok (acc ++ l, rest) := by
  induction l generalizing acc with
  | nil => simp [write_entries, read_entries]
  | cons kv t ih =>
    simp only [List.map_cons, List.nodup_cons] at hnd
    simp only [List.length_cons, write_entries, read_entries, List.append_assoc]
    rw [BitcoinOutPoint_read_write kv.1 _ (hwf kv (by simp)).1, except_bind_ok,
      hrt kv.2 _ (hwf kv (by simp)).2, except_bind_ok]
    have habs : kv.1 ∉ acc.map Prod.fst := hdisj kv.1 (by simp)
    rw [ainsert_not_mem_append acc kv.1 kv.2 habs]
    have := ih (acc ++ [(kv.1, kv.2)])
      (fun kv' h' => hwf kv' (by simp [h']))
      hnd.2
      (by
        intro k hk
        simp only [List.map_append, List.mem_append, List.map_cons, List.map_nil,
          List.mem_singleton]
        push_neg
        refine ⟨hdisj k (by simp [hk]), fun he => hnd.1 (he ▸ hk)⟩)
    rw [this]
    simp

/-- C7: decoding the byte stream produced by encoding any wellformed
`PackageTemplate` yields the original value (with the remaining stream
untouched), and the decoder rejects every variant tag of 4 or above with
`DecodeError::InvalidValue`. -/
theorem package_template_roundtrip_and_tag :
    (∀ (P : PackageTemplate) (rest : List Nat), P.WF →
      PackageTemplate.read (P.write ++ rest) = .ok (P, rest)) ∧
    (∀ (b : Nat) (s : List Nat), 4 ≤ b →
      PackageTemplate.read (b :: s) = .error .InvalidValue) := by
  constructor
  · intro P rest hwf
    cases P with
    | MalleableJusticeTx inputs =>
      obtain ⟨hlen, hnd, hcomp⟩ := hwf
      simp only [PackageTemplate.write, PackageTemplate.read, List.cons_append,
        List.append_assoc]
      rw [read_be_one_cons, except_bind_ok]
      dsimp only
      rw [read_be_append _ _ _ hlen, except_bind_ok]
      dsimp only
      rw [read_entries_write_entries RevokedOutput.read RevokedOutput.write
        RevokedOutput_read_write inputs [] rest hcomp hnd (by simp), except_bind_ok]
      simp
    | RemoteHTLCTx inputs =>
      obtain ⟨hlen, hnd, hcomp⟩ := hwf
      simp only [PackageTemplate.write, PackageTemplate.read, List.cons_append,
        List.append_assoc]
      rw [read_be_one_cons, except_bind_ok]
      dsimp only
      rw [read_be_append _ _ _ hlen, except_bind_ok]
      dsimp only
      rw [read_entries_write_entries RemoteHTLCOutput.read RemoteHTLCOutput.write
        RemoteHTLCOutput_read_write inputs [] rest hcomp hnd (by simp), except_bind_ok]
      simp
    | LocalHTLCTx input =>
      obtain ⟨h1, h2⟩ := hwf
      simp only [PackageTemplate.write, PackageTemplate.read, List.cons_append,
        List.append_assoc]
      rw [read_be_one_cons, except_bind_ok]
      dsimp only
      rw [BitcoinOutPoint_read_write input.1 _ h1, except_bind_ok]
      dsimp only
      rw [LocalHTLCOutput_read_write input.2 rest h2, except_bind_ok]
    | LocalCommitmentTx input =>
      obtain ⟨h1, h2⟩ := hwf
      simp only [PackageTemplate.write, PackageTemplate.read, List.cons_append,
        List.append_assoc]
      rw [read_be_one_cons, except_bind_ok]
      dsimp only
      rw [BitcoinOutPoint_read_write input.1 _ h1, except_bind_ok]
      dsimp only
      rw [LocalFundingOutput_read_write input.2 rest h2, except_bind_ok]
  · intro b s hb
    obtain ⟨c, rfl⟩ : ∃ c, b = c + 4 := ⟨b - 4, by omega⟩
    simp only [PackageTemplate.read]
    rw [read_be_one_cons, except_bind_ok]
    rfl

/-- Witness for C7: a one-entry justice package round-trips through the wire
encoding, and tag byte 4 is rejected. -/
theorem package_template_roundtrip_and_tag_witness :
    PackageTemplate.read ((PackageTemplate.MalleableJusticeTx [(⟨9, 0⟩, exRevoked5)]).write ++ []) =
      .ok (.MalleableJusticeTx [(⟨9, 0⟩, exRevoked5)], []) ∧
    PackageTemplate.read (4 :: [1, 2, 3]) = .error .InvalidValue :=
  ⟨package_template_roundtrip_and_tag.1 (.MalleableJusticeTx [(⟨9, 0⟩, exRevoked5)]) []
      (by decide),
   package_template_roundtrip_and_tag.2 4 [1, 2, 3] (by decide)⟩

/-- Witness for C9: merging into the default (uninitialized) request copies
`height_original`, `content` and `absolute_timelock` from the other request. -/
theorem request_merge_spec_witness :
    OnchainRequest.default.request_merge exRequest =
      some { OnchainRequest.default with
        height_original := exRequest.height_original
        content := exRequest.content
        absolute_timelock := exRequest.absolute_timelock } :=
  (request_merge_spec OnchainRequest.default exRequest).1 (by decide)

/-- C4 (counterexample): at amount `2^63` and one-millionth fee 2 the u64
multiplication inside `compute_fees` overflows and the source aborts
(`unreachable!()`, modelled as `none`); it neither saturates to `u64::MAX`
nor returns the exact value the claim's formula gives. -/
theorem compute_fees_overflow_counterexample :
    compute_fees (2 ^ 63) { base_msat := 0, proportional_millionths := 2 } = none ∧
    (none : Option Nat) ≠ some ((0 : Nat) + 2 ^ 63 * 2 / 1000000) ∧
    (none : Option Nat) ≠ some u64Max := by
  refine ⟨by decide, by decide, by decide⟩

/-- C4 (amended): whenever neither the u64 multiplication `amount * ppm` nor
the subsequent addition overflows, `compute_fees` returns
`base_msat + amount * proportional_millionths / 1_000_000`; on overflow the
source aborts via `unreachable!()` rather than saturating to `u64::MAX`. -/
theorem compute_fees_eq (amount_msat : Nat) (channel_fees : RoutingFees)
    (hmul : amount_msat * channel_fees.proportional_millionths < 2 ^ 64)
    (hadd : channel_fees.base_msat +
      amount_msat * channel_fees.proportional_millionths / 1000000 < 2 ^ 64) :
    compute_fees amount_msat channel_fees =
      some (channel_fees.base_msat +
        amount_msat * channel_fees.proportional_millionths / 1000000) := by
  unfold compute_fees checked_mul_u64 checked_add_u64
  rw [if_pos hmul]
  dsimp only
  rw [if_pos hadd]

/-- Witness for C4 (amended): 10000 msat through fees (base 3, 500000 ppm)
costs 3 + 5000 = 5003 msat. -/
theorem compute_fees_eq_witness :
    compute_fees 10000 { base_msat := 3, proportional_millionths := 500000 } = some 5003 := by
  have h := compute_fees_eq 10000 { base_msat := 3, proportional_millionths := 500000 }
    (by decide) (by decide)
  simpa using h

/-- C1 (counterexample): on the 51-path network, `get_route` for
`final_value_msat = 100000` succeeds with a 50-path route whose last-hop
fees sum to 80196, not 100000: the router collects 51 paths totalling
100196 msat, truncation to the 50 cheapest drops the highest-value path
(19% of the total), and the combination loop then never reaches the target,
so the returned route underpays. -/
theorem get_route_sum_counterexample :
    (get_route 60 1000 cexNetwork 0 none cexLastHops 100000 9).map
      (Except.map route_last_hop_fees_sum) = some (.ok 80196) ∧
    (80196 : Nat) ≠ 100000 := by
  constructor
  · set_option maxRecDepth 100000 in
    set_option maxHeartbeats 16000000 in
    decide
  · decide

/-- `getLastD` commutes with `map`. -/
theorem getLastD_map {α β : Type} (f : α → β) (d : α) :
    ∀ l : List α, (l.map f).getLastD (f d) = f (l.getLastD d)
  | [] => rfl
  | a :: t => by
    rw [List.map_cons, List.getLastD_cons, List.getLastD_cons, getLastD_map f a t]

/-- The backward fee pass rewrites only fee bookkeeping fields: the
`route_hop`s survive unchanged. -/
theorem recompute_rev_route_hops (v : Nat) :
    ∀ (t t' : List PaymentHop) (total : Nat), recompute_rev v t = some (t', total) →
      t'.map PaymentHop.route_hop = t.map PaymentHop.route_hop
  | [], t', total => by
    intro h
    simp only [recompute_rev] at h
    obtain ⟨rfl, rfl⟩ : t' = [] ∧ total = 0 := by
      constructor <;> [skip; skip] <;> cases h <;> rfl
    rfl
  | cur :: t, t', total => by
    intro h
    simp only [recompute_rev, Option.bind_eq_bind] at h
    cases hrec : recompute_rev v t with
    | none => rw [hrec] at h; exact Option.noConfusion h
    | some pr =>
      obtain ⟨t0, tot0⟩ := pr
      rw [hrec] at h
      dsimp only [Option.bind] at h
      cases hf : compute_fees (tot0 + v) cur.channel_fees with
      | none => rw [hf] at h; exact Option.noConfusion h
      | some nf =>
        rw [hf] at h
        dsimp only [Option.bind] at h
        simp only [Option.some.injEq, Prod.mk.injEq] at h
        obtain ⟨rfl, -⟩ := h
        simp only [List.map_cons]
        exact congrArg (cur.route_hop :: ·) (recompute_rev_route_hops v t t0 tot0 hrec)

/-- The forward fee pass never empties a path. -/
theorem propagate_fees_ne_nil (v : Nat) (x : PaymentHop) (xs : List PaymentHop) :
    propagate_fees v (x :: xs) ≠ [] := by
  cases xs <;> simp [propagate_fees]

/-- The forward fee pass rewrites the last hop's `fee_msat` to the new value
and leaves its other `route_hop` fields alone. -/
theorem propagate_fees_last (v : Nat) :
    ∀ l : List PaymentHop, l ≠ [] → ∀ d : PaymentHop,
      ((propagate_fees v l).getLastD d).route_hop =
        { (l.getLastD d).route_hop with fee_msat := v }
  | [], h, _ => absurd rfl h
  | [x], _, d => rfl
  | x :: y :: t, _, d => by
    have hstep : propagate_fees v (x :: y :: t) =
        { x with route_hop := { x.route_hop with fee_msat := y.hop_use_fee_msat } } ::
          propagate_fees v (y :: t) := rfl
    rw [hstep, List.getLastD_cons, propagate_fees_last v (y :: t) (List.cons_ne_nil y t)]
    simp only [List.getLastD_cons]

/-- `update_value_and_recompute_fees` keeps the path nonempty and rewrites
exactly the last hop's `fee_msat` (to the new value) inside its `route_hop`. -/
theorem update_value_last (p : PaymentPath) (v : Nat) (p' : PaymentPath)
    (h : p.update_value_and_recompute_fees v = some p') (d : PaymentHop) :
    p'.hops ≠ [] ∧
    (p'.hops.getLastD d).route_hop = { (p.hops.getLastD d).route_hop with fee_msat := v } := by
  unfold PaymentPath.update_value_and_recompute_fees at h
  cases hp : p.hops with
  | nil => rw [hp] at h; exact Option.noConfusion h
  | cons h0 t =>
    rw [hp] at h
    simp only [Option.bind_eq_bind] at h
    cases hrec : recompute_rev v t with
    | none => rw [hrec] at h; exact Option.noConfusion h
    | some pr =>
      obtain ⟨t', tot⟩ := pr
      rw [hrec] at h
      dsimp only [Option.bind] at h
      simp only [Option.some.injEq] at h
      subst h
      refine ⟨propagate_fees_ne_nil v h0 t', ?_⟩
      rw [propagate_fees_last v (h0 :: t') (List.cons_ne_nil h0 t') d]
      have hmap : (h0 :: t').map PaymentHop.route_hop = (h0 :: t).map PaymentHop.route_hop := by
        simp only [List.map_cons]
        exact congrArg (h0.route_hop :: ·) (recompute_rev_route_hops v t t' tot hrec)
      have h1 := getLastD_map PaymentHop.route_hop d (h0 :: t')
      have h2 := getLastD_map PaymentHop.route_hop d (h0 :: t)
      rw [hmap, h2] at h1
      rw [h1]

/-- `update_value_and_recompute_fees` preserves `GoodPath` and sets the
path's value to the requested amount. -/
theorem update_value_good (payee : PubKey) (final_cltv : Nat) (p : PaymentPath) (v : Nat)
    (p' : PaymentPath) (h : p.update_value_and_recompute_fees v = some p')
    (hg : GoodPath payee final_cltv p) :
    GoodPath payee final_cltv p' ∧ p'.get_value_msat = v := by
  obtain ⟨hne, hlast⟩ := update_value_last p v p' h dummyPaymentHop
  obtain ⟨-, hpk, hcl⟩ := hg
  refine ⟨⟨hne, ?_, ?_⟩, ?_⟩
  · rw [hlast]; exact hpk
  · rw [hlast]; exact hcl
  · unfold PaymentPath.get_value_msat
    rw [hlast]

/-- Stable insertion is a permutation of consing. -/
theorem insert_le_by_perm {α : Type} (key : α → Nat) (x : α) :
    ∀ l : List α, List.Perm (insert_le_by key x l) (x :: l)
  | [] => List.Perm.refl _
  | y :: ys => by
    unfold insert_le_by
    split
    · exact ((insert_le_by_perm key x ys).cons y).trans (List.Perm.swap x y ys)
    · exact List.Perm.refl _

/-- The stable sort permutes its input. -/
theorem sort_by_key_stable_perm {α : Type} (key : α → Nat) :
    ∀ l : List α, List.Perm (sort_by_key_stable key l) l
  | [] => List.Perm.refl _
  | x :: l => by
    unfold sort_by_key_stable
    rw [List.foldr_cons]
    exact (insert_le_by_perm key x _).trans ((sort_by_key_stable_perm key l).cons x)

/-- The stable sort preserves the summed values of a path list. -/
theorem sort_by_key_stable_sumVals (key : PaymentPath → Nat) (l : List PaymentPath) :
    sumVals (sort_by_key_stable key l) = sumVals l :=
  ((sort_by_key_stable_perm key l).map PaymentPath.get_value_msat).sum_eq

/-- The stable sort preserves membership. -/
theorem sort_by_key_stable_mem {α : Type} (key : α → Nat) (l : List α) (x : α)
    (h : x ∈ sort_by_key_stable key l) : x ∈ l :=
  (sort_by_key_stable_perm key l).mem_iff.mp h

/-- `split_last` decomposes a list into its initial segment and last element. -/
theorem split_last_eq {α : Type} :
    ∀ (l init : List α) (last : α), split_last l = some (init, last) → l = init ++ [last]
  | [], init, last => by intro h; exact Option.noConfusion h
  | [x], init, last => by
    intro h
    simp only [split_last, Option.some.injEq, Prod.mk.injEq] at h
    obtain ⟨rfl, rfl⟩ := h
    rfl
  | x :: y :: t, init, last => by
    intro h
    simp only [split_last] at h
    cases hs : split_last (y :: t) with
    | none => rw [hs] at h; exact Option.noConfusion h
    | some pr =>
      obtain ⟨init0, last0⟩ := pr
      rw [hs] at h
      simp only [Option.some.injEq, Prod.mk.injEq] at h
      obtain ⟨rfl, rfl⟩ := h
      rw [List.cons_append]
      exact congrArg (x :: ·) (split_last_eq (y :: t) init0 last0 hs)

/-- Every element of an `Option`-monad `mapM` result comes from applying the
function to some input element. -/
theorem mapM_option_mem {α β : Type} (f : α → Option β) :
    ∀ (l : List α) (res : List β), l.mapM f = some res →
      ∀ r ∈ res, ∃ x ∈ l, f x = some r
  | [], res => by
    intro h r hr
    simp only [List.mapM_nil, Option.pure_def, Option.some.injEq] at h
    subst h
    exact absurd hr (List.not_mem_nil r)
  | x :: xs, res => by
    intro h r hr
    simp only [List.mapM_cons, Option.pure_def, Option.bind_eq_bind] at h
    cases hx : f x with
    | none => rw [hx] at h; exact Option.noConfusion h
    | some b =>
      rw [hx] at h
      dsimp only [Option.bind] at h
      cases hxs : xs.mapM f with
      | none => rw [hxs] at h; exact Option.noConfusion h
      | some bs =>
        rw [hxs] at h
        dsimp only [Option.bind] at h
        simp only [Option.some.injEq] at h
        subst h
        rcases hr with _ | hr2
        · exact ⟨x, List.mem_cons_self x xs, hx⟩
        · obtain ⟨y, hy, hfy⟩ := mapM_option_mem f xs bs hxs r (by assumption)
          exact ⟨y, List.mem_cons_of_mem x hy, hfy⟩

/-- Accounting of the retain pass: the dropped value is debited exactly from
the leftover overpayment, which never grows, and kept paths come from the
input. -/
theorem retain_drop_spec :
    ∀ (l : List PaymentPath) (n o : Nat),
      (retain_drop l n o).2 + sumVals l = sumVals (retain_drop l n o).1 + o ∧
      (retain_drop l n o).2 ≤ o ∧
      ∀ p ∈ (retain_drop l n o).1, p ∈ l
  | [], n, o => by
    have hstep : retain_drop [] n o = ([], o) := rfl
    rw [hstep]
    refine ⟨by simp [sumVals], Nat.le_refl o, ?_⟩
    intro p hp
    exact absurd hp (List.not_mem_nil p)
  | path :: rest, n, o => by
    by_cases h1 : n = 1
    · have hr := retain_drop_spec rest n o
      have hstep : retain_drop (path :: rest) n o =
          (path :: (retain_drop rest n o).1, (retain_drop rest n o).2) := by
        simp only [retain_drop]
        rw [if_pos h1]
      rw [hstep]
      refine ⟨?_, hr.2.1, ?_⟩
      · simp only [sumVals, List.map_cons, List.sum_cons]
        have := hr.1
        simp only [sumVals] at this
        omega
      · intro p hp
        rcases hp with _ | hp2
        · exact List.mem_cons_self path rest
        · exact List.mem_cons_of_mem path (hr.2.2 p (by assumption))
    · by_cases h2 : path.get_value_msat ≤ o
      · have hr := retain_drop_spec rest (n - 1) (o - path.get_value_msat)
        have hstep : retain_drop (path :: rest) n o =
            retain_drop rest (n - 1) (o - path.get_value_msat) := by
          simp only [retain_drop]
          rw [if_neg h1, if_pos h2]
        rw [hstep]
        refine ⟨?_, ?_, ?_⟩
        · have := hr.1
          simp only [sumVals, List.map_cons, List.sum_cons] at this ⊢
          omega
        · omega
        · intro p hp
          exact List.mem_cons_of_mem path (hr.2.2 p hp)
      · have hr := retain_drop_spec rest n o
        have hstep : retain_drop (path :: rest) n o =
            (path :: (retain_drop rest n o).1, (retain_drop rest n o).2) := by
          simp only [retain_drop]
          rw [if_neg h1, if_neg h2]
        rw [hstep]
        refine ⟨?_, hr.2.1, ?_⟩
        · have := hr.1
          simp only [sumVals, List.map_cons, List.sum_cons] at this ⊢
          omega
        · intro p hp
          rcases hp with _ | hp2
          · exact List.mem_cons_self path rest
          · exact List.mem_cons_of_mem path (hr.2.2 p (by assumption))

/-- The overpayment correction keeps every path good and lands the summed
value exactly on the target when the input sum equals target plus
overpayment. -/
theorem drop_and_adjust_spec (payee : PubKey) (final_cltv final_value_msat : Nat)
    (cur : List PaymentPath) (o : Nat) (r : List PaymentPath)
    (hgood : ∀ p ∈ cur, GoodPath payee final_cltv p)
    (hsum : sumVals cur = final_value_msat + o)
    (h : drop_and_adjust final_value_msat cur o = some r) :
    (∀ p ∈ r, GoodPath payee final_cltv p) ∧ sumVals r = final_value_msat := by
  unfold drop_and_adjust at h
  set s := sort_by_key_stable PaymentPath.get_value_msat cur with hs
  have hsum_s : sumVals s = final_value_msat + o := by
    rw [hs, sort_by_key_stable_sumVals]; exact hsum
  have hgood_s : ∀ p ∈ s, GoodPath payee final_cltv p := fun p hp =>
    hgood p (sort_by_key_stable_mem _ cur p hp)
  obtain ⟨hacc, hole, hmem⟩ := retain_drop_spec s s.length o
  set k := (retain_drop s s.length o).1 with hk
  set o' := (retain_drop s s.length o).2 with ho'
  have hsum_k : sumVals k = final_value_msat + o' := by
    simp only [sumVals] at hacc hsum_s ⊢
    omega
  have hgood_k : ∀ p ∈ k, GoodPath payee final_cltv p := fun p hp =>
    hgood_s p (hmem p hp)
  dsimp only at h
  rw [← hk, ← ho'] at h
  by_cases hz : o' = 0
  · rw [if_pos hz] at h
    simp only [Option.some.injEq] at h
    subst h
    refine ⟨hgood_k, ?_⟩
    rw [hsum_k, hz]
    omega
  · rw [if_neg hz] at h
    by_cases hemp : k.isEmpty
    · rw [if_pos hemp] at h
      exact Option.noConfusion h
    · rw [if_neg hemp] at h
      set s2 := sort_by_key_stable
        (fun path => (path.hops.map (fun hop => hop.channel_fees.proportional_millionths)).sum)
        k with hs2
      have hsum_s2 : sumVals s2 = final_value_msat + o' := by
        rw [hs2, sort_by_key_stable_sumVals]; exact hsum_k
      have hgood_s2 : ∀ p ∈ s2, GoodPath payee final_cltv p := fun p hp =>
        hgood_k p (sort_by_key_stable_mem _ k p hp)
      cases hsp : split_last s2 with
      | none => rw [hsp] at h; exact Option.noConfusion h
      | some pr =>
        obtain ⟨init, expensive⟩ := pr
        rw [hsp] at h
        have hdec : s2 = init ++ [expensive] := split_last_eq s2 init expensive hsp
        simp only [Option.bind_eq_bind] at h
        cases hcs : checked_sub expensive.get_value_msat o' with
        | none => rw [hcs] at h; exact Option.noConfusion h
        | some nv =>
          rw [hcs] at h
          dsimp only [Option.bind] at h
          have hle : o' ≤ expensive.get_value_msat ∧ nv = expensive.get_value_msat - o' := by
            unfold checked_sub at hcs
            by_cases hb : o' ≤ expensive.get_value_msat
            · rw [if_pos hb] at hcs
              simp only [Option.some.injEq] at hcs
              omega
            · rw [if_neg hb] at hcs; exact Option.noConfusion hcs
          cases hup : expensive.update_value_and_recompute_fees nv with
          | none => rw [hup] at h; exact Option.noConfusion h
          | some expensive2 =>
            rw [hup] at h
            dsimp only [Option.bind] at h
            simp only [Option.some.injEq] at h
            subst h
            have hgexp : GoodPath payee final_cltv expensive := by
              refine hgood_s2 expensive ?_
              rw [hdec]
              exact List.mem_append_right init (List.mem_singleton_self expensive)
            obtain ⟨hg2, hv2⟩ :=
              update_value_good payee final_cltv expensive nv expensive2 hup hgexp
            constructor
            · intro p hp
              rcases List.mem_append.mp hp with hpi | hpe
              · refine hgood_s2 p ?_
                rw [hdec]
                exact List.mem_append_left [expensive] hpi
              · rw [List.mem_singleton.mp hpe]
                exact hg2
            · have hss : sumVals s2 = sumVals init + expensive.get_value_msat := by
                rw [hdec]
                simp [sumVals]
              have hrr : sumVals (init ++ [expensive2]) = sumVals init + nv := by
                simp [sumVals, hv2]
              omega

/-- The route-drawing pass over one rotation returns good paths whose values
sum to at most the target. -/
theorem draw_route_loop_spec (payee : PubKey) (final_cltv final_value_msat : Nat) :
    ∀ (rest acc : List PaymentPath) (agg : Nat) (r : List PaymentPath),
      (∀ p ∈ rest, GoodPath payee final_cltv p) →
      (∀ p ∈ acc, GoodPath payee final_cltv p) →
      agg = sumVals acc → agg ≤ final_value_msat →
      draw_route_loop final_value_msat rest acc agg = some r →
      (∀ p ∈ r, GoodPath payee final_cltv p) ∧ sumVals r ≤ final_value_msat
  | [], acc, agg, r => by
    intro _ hacc hagg hle h
    simp only [draw_route_loop, Option.some.injEq] at h
    subst h
    exact ⟨hacc, hagg ▸ hle⟩
  | path :: rest, acc, agg, r => by
    intro hrest hacc hagg hle h
    simp only [draw_route_loop] at h
    have hgp : GoodPath payee final_cltv path := hrest path (List.mem_cons_self path rest)
    have hacc' : ∀ p ∈ acc ++ [path], GoodPath payee final_cltv p := by
      intro p hp
      rcases List.mem_append.mp hp with hpi | hpe
      · exact hacc p hpi
      · rw [List.mem_singleton.mp hpe]
        exact hgp
    have hsum' : agg + path.get_value_msat = sumVals (acc ++ [path]) := by
      simp [sumVals, hagg]
    by_cases hreach : final_value_msat ≤ agg + path.get_value_msat
    · rw [if_pos hreach] at h
      obtain ⟨hg, he⟩ := drop_and_adjust_spec payee final_cltv final_value_msat (acc ++ [path])
        (agg + path.get_value_msat - final_value_msat) r hacc' (by omega) h
      exact ⟨hg, he.le⟩
    · rw [if_neg hreach] at h
      exact draw_route_loop_spec payee final_cltv final_value_msat rest (acc ++ [path])
        (agg + path.get_value_msat) r
        (fun p hp => hrest p (List.mem_cons_of_mem path hp)) hacc' hsum' (by omega) h

/-- Filling a hop's node features changes nothing else in its `route_hop`. -/
theorem fill_features_fields (h h' : PaymentHop) (payee : PubKey)
    (tg : List (PubKey × (Nat × InitFeatures))) (nw : NetworkGraph)
    (hf : fill_features h payee tg nw = some h') :
    h'.route_hop.pubkey = h.route_hop.pubkey ∧
    h'.route_hop.cltv_expiry_delta = h.route_hop.cltv_expiry_delta := by
  unfold fill_features at hf
  cases h1 : alookup tg h.route_hop.pubkey with
  | some pr =>
    obtain ⟨fh, features⟩ := pr
    rw [h1] at hf
    simp only [Option.some.injEq] at hf
    subst hf
    exact ⟨rfl, rfl⟩
  | none =>
    rw [h1] at hf
    dsimp only at hf
    cases h2 : alookup nw.get_nodes h.route_hop.pubkey with
    | some node =>
      rw [h2] at hf
      dsimp only at hf
      cases h3 : node.announcement_info with
      | some ni =>
        rw [h3] at hf
        dsimp only at hf
        simp only [Option.some.injEq] at hf
        subst hf
        exact ⟨rfl, rfl⟩
      | none =>
        rw [h3] at hf
        dsimp only at hf
        simp only [Option.some.injEq] at hf
        subst hf
        exact ⟨rfl, rfl⟩
    | none =>
      rw [h2] at hf
      dsimp only at hf
      by_cases h4 : h.route_hop.pubkey = payee
      · rw [if_pos h4] at hf
        simp only [Option.some.injEq] at hf
        subst hf
        exact ⟨rfl, rfl⟩
      · rw [if_neg h4] at hf
        exact Option.noConfusion hf

/-- A successful hop-chain walk hands back a nonempty reversed hop list whose
head (the path's future last hop) is the payee. -/
theorem reconstruct_loop_head (payee : PubKey)
    (tg : List (PubKey × (Nat × InitFeatures))) (nw : NetworkGraph) :
    ∀ (fuel : Nat) (wv : List (PubKey × PaymentHop)) (stack : List PaymentHop)
      (ne : PaymentHop) (b : Nat) (wv' : List (PubKey × PaymentHop))
      (rh : List PaymentHop) (bot : Nat),
      reconstruct_loop payee tg nw fuel wv stack ne b = some (.done wv' rh bot) →
      ∃ hh tt, rh = hh :: tt ∧ hh.route_hop.pubkey = payee
  | 0, wv, stack, ne, b, wv', rh, bot => by
    intro h
    cases stack <;> exact Option.noConfusion h
  | fuel + 1, wv, stack, ne, b, wv', rh, bot => by
    intro h
    cases stack with
    | nil => exact Option.noConfusion h
    | cons last rest =>
      simp only [reconstruct_loop, Option.bind_eq_bind, Option.bind_eq_some] at h
      obtain ⟨last2, hfill, h⟩ := h
      by_cases hp : last2.route_hop.pubkey = payee
      · rw [if_pos hp] at h
        simp only [Option.some.injEq, ReconOut.done.injEq] at h
        exact ⟨last2, rest, h.2.1.symm, hp⟩
      · rw [if_neg hp] at h
        cases hrm : aremove wv last2.route_hop.pubkey with
        | none =>
          rw [hrm] at h
          simp only [Option.some.injEq] at h
          exact ReconOut.noConfusion h
        | some pr =>
          obtain ⟨next_entry, wv2⟩ := pr
          rw [hrm] at h
          exact reconstruct_loop_head payee tg nw fuel wv2 _ next_entry _ wv' rh bot h

/-- Setting the last hop's fee and cltv keeps the path nonempty. -/
theorem set_last_fee_cltv_ne_nil (fee cltv : Nat) (l : List PaymentHop) (h : l ≠ []) :
    set_last_fee_cltv fee cltv l ≠ [] := by
  match l, h with
  | x :: xs, _ => cases xs <;> simp [set_last_fee_cltv]

/-- Setting the last hop's fee and cltv rewrites exactly those two fields of
the last `route_hop`. -/
theorem set_last_fee_cltv_last (fee cltv : Nat) :
    ∀ l : List PaymentHop, l ≠ [] → ∀ d : PaymentHop,
      ((set_last_fee_cltv fee cltv l).getLastD d).route_hop =
        { (l.getLastD d).route_hop with fee_msat := fee, cltv_expiry_delta := cltv }
  | [], h, _ => absurd rfl h
  | [x], _, d => rfl
  | x :: y :: t, _, d => by
    have hstep : set_last_fee_cltv fee cltv (x :: y :: t) =
        x :: set_last_fee_cltv fee cltv (y :: t) := rfl
    rw [hstep, List.getLastD_cons,
      set_last_fee_cltv_last fee cltv (y :: t) (List.cons_ne_nil y t)]
    simp only [List.getLastD_cons]

/-- The last element of a reversed cons is its head. -/
theorem getLastD_reverse_cons {α : Type} (hh : α) (tt : List α) (d : α) :
    ((hh :: tt).reverse).getLastD d = hh := by
  rw [List.getLastD_eq_getLast?, List.getLast?_reverse]
  rfl

/-- Every path pushed by the inner construction loop ends at the payee with
the final cltv. -/
theorem path_construction_loop_good (our_node_id payee : PubKey)
    (final_value_msat final_cltv : Nat) (fhg : Bool)
    (tg : List (PubKey × (Nat × InitFeatures))) (nw : NetworkGraph) :
    ∀ (fuel : Nat) (state st' : RoutingState) (p : PaymentPath),
      path_construction_loop our_node_id payee final_value_msat final_cltv fhg tg nw
        fuel state = some (.pushed st' p) →
      GoodPath payee final_cltv p
  | 0, state, st', p => by intro h; exact Option.noConfusion h
  | fuel + 1, state, st', p => by
    intro h
    simp only [path_construction_loop] at h
    cases hpop : heap_pop state.targeted_edges with
    | none =>
      rw [hpop] at h
      exact InnerOut.noConfusion (Option.some.inj h)
    | some pr =>
      obtain ⟨node, te⟩ := pr
      rw [hpop] at h
      dsimp only at h
      by_cases hn : node.pubkey = our_node_id
      · rw [if_pos hn] at h
        cases hrm : aremove state.weighted_vertices our_node_id with
        | none =>
          rw [hrm] at h
          exact Option.noConfusion h
        | some pr2 =>
          obtain ⟨new_entry, wv⟩ := pr2
          rw [hrm] at h
          dsimp only at h
          simp only [Option.bind_eq_bind, Option.bind_eq_some] at h
          obtain ⟨ro, hrec, h⟩ := h
          cases ro with
          | stop => exact InnerOut.noConfusion (Option.some.inj h)
          | done wv2 rh bot =>
            dsimp only at h
            simp only [Option.bind_eq_some] at h
            obtain ⟨pp, hup, h⟩ := h
            obtain ⟨dout, hdeb, h⟩ := h
            cases dout with
            | stop book => exact InnerOut.noConfusion (Option.some.inj h)
            | done book =>
              have hppp : p = pp := by
                have := Option.some.inj h
                exact (InnerOut.pushed.injEq _ _ _ _).mp this |>.2.symm
              subst hppp
              obtain ⟨hh, tt, hrh, hpk⟩ :=
                reconstruct_loop_head payee tg nw (fuel + 1) wv
                  [new_entry] new_entry (final_value_msat * 10) wv2 rh bot hrec
              have hrevne : rh.reverse ≠ [] := by
                rw [hrh]
                simp
              have hordne : set_last_fee_cltv final_value_msat final_cltv rh.reverse ≠ [] :=
                set_last_fee_cltv_ne_nil final_value_msat final_cltv rh.reverse hrevne
              have hlast := set_last_fee_cltv_last final_value_msat final_cltv rh.reverse
                hrevne dummyPaymentHop
              rw [hrh, getLastD_reverse_cons hh tt dummyPaymentHop] at hlast
              rw [← hrh] at hlast
              have hgood : GoodPath payee final_cltv
                  ⟨set_last_fee_cltv final_value_msat final_cltv rh.reverse⟩ := by
                refine ⟨hordne, ?_, ?_⟩
                · show ((set_last_fee_cltv final_value_msat final_cltv
                    rh.reverse).getLastD dummyPaymentHop).route_hop.pubkey = payee
                  rw [hlast]
                  exact hpk
                · show ((set_last_fee_cltv final_value_msat final_cltv
                    rh.reverse).getLastD dummyPaymentHop).route_hop.cltv_expiry_delta = final_cltv
                  rw [hlast]
              exact (update_value_good payee final_cltv _ _ p hup hgood).1
      · rw [if_neg hn] at h
        have step2 : ∀ s1 : RoutingState,
            (match alookup nw.get_nodes node.pubkey with
              | none =>
                (some s1).bind fun y =>
                  path_construction_loop our_node_id payee final_value_msat final_cltv fhg
                    tg nw fuel y
              | some n =>
                (s1.select_weighted_vertice_to_target_edge n node.pubkey
                    node.lowest_fee_to_node fhg nw).bind fun y =>
                  path_construction_loop our_node_id payee final_value_msat final_cltv fhg
                    tg nw fuel y) = some (.pushed st' p) →
            GoodPath payee final_cltv p := by
          intro s1 hh
          cases halk : alookup nw.get_nodes node.pubkey with
          | none =>
            rw [halk] at hh
            dsimp only [Option.bind] at hh
            exact path_construction_loop_good our_node_id payee final_value_msat final_cltv
              fhg tg nw fuel s1 st' p hh
          | some n =>
            rw [halk] at hh
            simp only [Option.bind_eq_some] at hh
            obtain ⟨s2, -, hh⟩ := hh
            exact path_construction_loop_good our_node_id payee final_value_msat final_cltv
              fhg tg nw fuel s2 st' p hh
        by_cases hfb : fhg = true
        · rw [if_pos hfb] at h
          cases halt : alookup tg node.pubkey with
          | none =>
            rw [halt] at h
            dsimp only at h
            simp only [Option.bind_eq_bind, Option.bind_eq_some] at h
            obtain ⟨s1, -, h⟩ := h
            exact step2 s1 h
          | some pr3 =>
            obtain ⟨first_hop, features⟩ := pr3
            rw [halt] at h
            dsimp only at h
            simp only [Option.bind_eq_bind, Option.bind_eq_some] at h
            obtain ⟨s1, -, h⟩ := h
            exact step2 s1 h
        · rw [if_neg hfb] at h
          simp only [Option.bind_eq_bind, Option.bind_eq_some] at h
          obtain ⟨s1, -, h⟩ := h
          exact step2 s1 h

/-- Every path accumulated by the collection loop ends at the payee with the
final cltv. -/
theorem paths_collection_loop_good (our_node_id payee : PubKey)
    (final_value_msat final_cltv : Nat) (fhg : Bool)
    (tg : List (PubKey × (Nat × InitFeatures))) (last_hops : List RouteHint)
    (nw : NetworkGraph) (inner_fuel : Nat) :
    ∀ (fuel : Nat) (state : RoutingState) (paths : List PaymentPath)
      (st' : RoutingState) (paths' : List PaymentPath),
      (∀ p ∈ paths, GoodPath payee final_cltv p) →
      paths_collection_loop our_node_id payee final_value_msat final_cltv fhg tg
        last_hops nw inner_fuel fuel state paths = some (st', paths') →
      ∀ p ∈ paths', GoodPath payee final_cltv p
  | 0, state, paths, st', paths' => by
    intro hpre h
    exact Option.noConfusion h
  | fuel + 1, state, paths, st', paths' => by
    intro hpre h
    simp only [paths_collection_loop, Option.bind_eq_bind, Option.bind_eq_some] at h
    obtain ⟨s1, -, h⟩ := h
    obtain ⟨io, hio, h⟩ := h
    cases io with
    | exhausted s2 =>
      dsimp only at h
      obtain ⟨rfl, rfl⟩ : st' = s2 ∧ paths' = paths := by
        have := Option.some.inj h
        exact ⟨congrArg Prod.fst this |>.symm, congrArg Prod.snd this |>.symm⟩
      exact hpre
    | stop_all s2 =>
      dsimp only at h
      obtain ⟨rfl, rfl⟩ : st' = s2 ∧ paths' = paths := by
        have := Option.some.inj h
        exact ⟨congrArg Prod.fst this |>.symm, congrArg Prod.snd this |>.symm⟩
      exact hpre
    | pushed s2 pp =>
      dsimp only at h
      have hgp : GoodPath payee final_cltv pp :=
        path_construction_loop_good our_node_id payee final_value_msat final_cltv
          fhg tg nw inner_fuel s1 s2 pp hio
      have hpre' : ∀ p ∈ paths ++ [pp], GoodPath payee final_cltv p := by
        intro p hp
        rcases List.mem_append.mp hp with hpi | hpe
        · exact hpre p hpi
        · rw [List.mem_singleton.mp hpe]
          exact hgp
      by_cases hreach : s2.recommended_value_msat ≤ s2.already_collected_value_msat
      · rw [if_pos hreach] at h
        obtain ⟨rfl, rfl⟩ : st' = s2 ∧ paths' = paths ++ [pp] := by
          have := Option.some.inj h
          exact ⟨congrArg Prod.fst this |>.symm, congrArg Prod.snd this |>.symm⟩
        exact hpre'
      · rw [if_neg hreach] at h
        exact paths_collection_loop_good our_node_id payee final_value_msat final_cltv
          fhg tg last_hops nw inner_fuel fuel s2 (paths ++ [pp]) st' paths' hpre' h

/-- The early-return route built from a first hop that lands on the payee is
a single one-hop path carrying the full value, final cltv, and payee key. -/
theorem build_first_hop_targets_inl (payee : PubKey) (final_value_msat final_cltv : Nat) :
    ∀ (hops : List ChannelDetails) (acc : List (PubKey × (Nat × InitFeatures)))
      (route : Route),
      build_first_hop_targets payee final_value_msat final_cltv hops acc =
        some (.inl route) →
      ∃ rh : RouteHop, route = { paths := [[rh]] } ∧ rh.pubkey = payee ∧
        rh.fee_msat = final_value_msat ∧ rh.cltv_expiry_delta = final_cltv
  | [], acc, route => by
    intro h
    simp only [build_first_hop_targets, Option.some.injEq] at h
    exact Sum.noConfusion h
  | chan :: rest, acc, route => by
    intro h
    simp only [build_first_hop_targets] at h
    cases hsc : chan.short_channel_id with
    | none => rw [hsc] at h; exact Option.noConfusion h
    | some scid =>
      rw [hsc] at h
      dsimp only at h
      by_cases hp : chan.remote_network_id = payee
      · rw [if_pos hp] at h
        have heq2 := Sum.inl.inj (Option.some.inj h)
        exact ⟨_, heq2.symm, hp, rfl, rfl⟩
      · rw [if_neg hp] at h
        exact build_first_hop_targets_inl payee final_value_msat final_cltv rest _ route h

/-- Common tail of `get_route` after the first-hop targets are settled: a
successful route has every path ending at the payee with the final cltv, and
its last-hop fees sum to at most the requested value. -/
theorem get_route_tail_spec (fuel : Nat) (our_node_id : PubKey) (network : NetworkGraph)
    (payee : PubKey) (fhg : Bool) (tg : List (PubKey × (Nat × InitFeatures)))
    (last_hops : List RouteHint) (final_value_msat final_cltv : Nat) (route : Route)
    (h : (if fhg && tg.isEmpty then
            some (Except.error LightningErr.no_outbound_routes)
          else do
            let (state, payment_paths) ←
              paths_collection_loop our_node_id payee final_value_msat final_cltv
                fhg tg last_hops network fuel fuel
                { targeted_edges := []
                  weighted_vertices := []
                  payer_node_id := our_node_id
                  bookkeeped_channels_liquidity_available_msat := []
                  recommended_value_msat :=
                    final_value_msat * ROUTE_CAPACITY_PROVISION_FACTOR
                  already_collected_value_msat := 0 } []
            if payment_paths.length = 0 then
              some (Except.error LightningErr.no_path_found)
            else if state.already_collected_value_msat < final_value_msat then
              some (Except.error LightningErr.insufficient_route)
            else do
              let payment_paths :=
                sort_by_key_stable PaymentPath.get_total_fee_paid_msat payment_paths
              let payment_paths :=
                if 50 < payment_paths.length then payment_paths.take 50 else payment_paths
              let drawn_routes ←
                (List.range payment_paths.length).mapM
                  (fun i => draw_route_loop final_value_msat
                    (payment_paths.drop i ++ payment_paths.take i) [] 0)
              let drawn_routes :=
                sort_by_key_stable
                  (fun paths => (paths.map PaymentPath.get_total_fee_paid_msat).sum)
                  drawn_routes
              match drawn_routes with
              | [] => none
              | best :: _ =>
                let selected_paths := best.map (fun payment_path =>
                  payment_path.hops.map (fun payment_hop => payment_hop.route_hop))
                some (Except.ok { paths := selected_paths })) = some (Except.ok route)) :
    (∀ p ∈ route.paths, p ≠ [] ∧
      (p.getLastD dummyPaymentHop.route_hop).pubkey = payee ∧
      (p.getLastD dummyPaymentHop.route_hop).cltv_expiry_delta = final_cltv) ∧
    route_last_hop_fees_sum route ≤ final_value_msat := by
  by_cases h0 : (fhg && tg.isEmpty) = true
  · rw [if_pos h0] at h
    exact Except.noConfusion (Option.some.inj h)
  · rw [if_neg h0] at h
    simp only [Option.bind_eq_bind, Option.bind_eq_some] at h
    obtain ⟨sp, hcoll, h⟩ := h
    obtain ⟨st, pp⟩ := sp
    dsimp only at h
    have hgood : ∀ p ∈ pp, GoodPath payee final_cltv p :=
      paths_collection_loop_good our_node_id payee final_value_msat final_cltv fhg tg
        last_hops network fuel fuel _ [] st pp
        (fun p hp => absurd hp (List.not_mem_nil p)) hcoll
    by_cases hlen : pp.length = 0
    · rw [if_pos hlen] at h
      exact Except.noConfusion (Option.some.inj h)
    · rw [if_neg hlen] at h
      by_cases hcol : st.already_collected_value_msat < final_value_msat
      · rw [if_pos hcol] at h
        exact Except.noConfusion (Option.some.inj h)
      · rw [if_neg hcol] at h
        set pps := sort_by_key_stable PaymentPath.get_total_fee_paid_msat pp with hpps
        set trunc := (if 50 < pps.length then pps.take 50 else pps) with htrunc
        have hgood_t : ∀ p ∈ trunc, GoodPath payee final_cltv p := by
          intro p hp
          refine hgood p (sort_by_key_stable_mem PaymentPath.get_total_fee_paid_msat pp p ?_)
          rw [htrunc] at hp
          by_cases h50 : 50 < pps.length
          · rw [if_pos h50] at hp
            exact List.take_subset 50 pps hp
          · rw [if_neg h50] at hp
            exact hp
        simp only [Option.bind_eq_bind, Option.bind_eq_some] at h
        obtain ⟨drawn, hmapm, h⟩ := h
        have hdrawn : ∀ d ∈ drawn,
            (∀ p ∈ d, GoodPath payee final_cltv p) ∧ sumVals d ≤ final_value_msat := by
          intro d hd
          obtain ⟨i, hi, hdraw⟩ :=
            mapM_option_mem _ (List.range trunc.length) drawn hmapm d hd
          refine draw_route_loop_spec payee final_cltv final_value_msat
            (trunc.drop i ++ trunc.take i) [] 0 d ?_
            (fun p hp => absurd hp (List.not_mem_nil p)) rfl (Nat.zero_le _) hdraw
          intro p hp
          rcases List.mem_append.mp hp with hp1 | hp2
          · exact hgood_t p (List.drop_subset i trunc hp1)
          · exact hgood_t p (List.take_subset i trunc hp2)
        cases hsd : sort_by_key_stable
            (fun paths => (paths.map PaymentPath.get_total_fee_paid_msat).sum) drawn with
        | nil =>
          rw [hsd] at h
          exact Option.noConfusion h
        | cons best rest2 =>
          rw [hsd] at h
          dsimp only at h
          have hroute : route =
              { paths := best.map (fun payment_path =>
                  payment_path.hops.map (fun payment_hop => payment_hop.route_hop)) } :=
            (Except.ok.inj (Option.some.inj h)).symm
          have hbest : best ∈ drawn := by
            refine sort_by_key_stable_mem
              (fun paths => (paths.map PaymentPath.get_total_fee_paid_msat).sum) drawn best ?_
            rw [hsd]
            exact List.mem_cons_self best rest2
          obtain ⟨hbg, hbsum⟩ := hdrawn best hbest
          rw [hroute]
          constructor
          · intro p hp
            simp only [List.mem_map] at hp
            obtain ⟨pp2, hpp2, rfl⟩ := hp
            obtain ⟨hne, hpk, hcl⟩ := hbg pp2 hpp2
            refine ⟨?_, ?_, ?_⟩
            · intro hnil
              exact hne (List.map_eq_nil_iff.mp hnil)
            · rw [getLastD_map PaymentHop.route_hop dummyPaymentHop pp2.hops]
              exact hpk
            · rw [getLastD_map PaymentHop.route_hop dummyPaymentHop pp2.hops]
              exact hcl
          · unfold route_last_hop_fees_sum
            dsimp only
            rw [List.map_map]
            have hcongr : best.map ((fun p => (p.getLastD dummyPaymentHop.route_hop).fee_msat) ∘
                (fun payment_path => payment_path.hops.map
                  (fun payment_hop => payment_hop.route_hop))) =
                best.map PaymentPath.get_value_msat := by
              refine List.map_congr_left ?_
              intro pp2 hpp2
              show ((pp2.hops.map PaymentHop.route_hop).getLastD
                dummyPaymentHop.route_hop).fee_msat = pp2.get_value_msat
              rw [getLastD_map PaymentHop.route_hop dummyPaymentHop pp2.hops]
              rfl
            rw [hcongr]
            exact hbsum

/-- C1 (amended): for every successful `get_route` call, every path of the
returned route is nonempty and ends at the payee with `cltv_expiry_delta`
equal to `final_cltv`, and the sum over paths of the last hop's `fee_msat`
is at most `final_value_msat`.  (The original claim's equality fails: when
more than 50 paths are collected, truncation to the 50 cheapest can leave the
route short of the target, as `get_route_sum_counterexample` shows.) -/
theorem get_route_paths_spec (fuel : Nat) (our_node_id : PubKey)
    (network : NetworkGraph) (payee : PubKey)
    (first_hops : Option (List ChannelDetails)) (last_hops : List RouteHint)
    (final_value_msat final_cltv : Nat) (route : Route)
    (h : get_route fuel our_node_id network payee first_hops last_hops
      final_value_msat final_cltv = some (Except.ok route)) :
    (∀ p ∈ route.paths, p ≠ [] ∧
      (p.getLastD dummyPaymentHop.route_hop).pubkey = payee ∧
      (p.getLastD dummyPaymentHop.route_hop).cltv_expiry_delta = final_cltv) ∧
    route_last_hop_fees_sum route ≤ final_value_msat := by
  unfold get_route at h
  by_cases h1 : payee = our_node_id
  · rw [if_pos h1] at h
    exact Except.noConfusion (Option.some.inj h)
  · rw [if_neg h1] at h
    by_cases h2 : MAX_VALUE_MSAT < final_value_msat
    · rw [if_pos h2] at h
      exact Except.noConfusion (Option.some.inj h)
    · rw [if_neg h2] at h
      cases first_hops with
      | none =>
        dsimp only at h
        exact get_route_tail_spec fuel our_node_id network payee false [] last_hops
          final_value_msat final_cltv route h
      | some fhl =>
        dsimp only at h
        cases hb : build_first_hop_targets payee final_value_msat final_cltv fhl [] with
        | none =>
          rw [hb] at h
          exact Option.noConfusion h
        | some t =>
          rw [hb] at h
          cases t with
          | inl r =>
            have hroute : route = r := (Except.ok.inj (Option.some.inj h)).symm
            obtain ⟨rh, hr, hpk, hfee, hcl⟩ :=
              build_first_hop_targets_inl payee final_value_msat final_cltv fhl [] r hb
            rw [hroute, hr]
            constructor
            · intro p hp
              rw [List.mem_singleton.mp hp]
              refine ⟨List.cons_ne_nil rh [], ?_, ?_⟩
              · show rh.pubkey = payee
                exact hpk
              · show rh.cltv_expiry_delta = final_cltv
                exact hcl
            · simp only [route_last_hop_fees_sum, List.map_cons, List.map_nil,
                List.sum_cons, List.sum_nil]
              show rh.fee_msat + 0 ≤ final_value_msat
              omega
          | inr tg =>
            exact get_route_tail_spec fuel our_node_id network payee true tg last_hops
              final_value_msat final_cltv route h

/-- C1 (amended, witness): applying the theorem to a concrete first-hop
early return: the one-hop route to payee 2 pays at most the requested 100
msat. -/
theorem get_route_paths_spec_witness :
    route_last_hop_fees_sum exTrivialRoute ≤ 100 :=
  (get_route_paths_spec 1 1 { channels := [], nodes := [] } 2 (some [exFirstHop]) [] 100 9
    exTrivialRoute (by decide)).2
